import Mathlib

/-!
Verification of `scripts/migrate-sqlite-to-pg.py`: a one-shot SQLite →
PostgreSQL data migration pipeline.  The script's pure conversion layer
(boolean / JSON / datetime column rules), its per-table migration with a
batched `INSERT ... ON CONFLICT DO NOTHING`, its sequence-repair pass and
its statistics accumulator are embedded below; the two database connections
are modelled at the interface the script uses (read all rows of a table;
execute a parameterized statement returning the number of affected rows;
commit / rollback; a session-wide toggle for foreign-key enforcement),
which is how the design document scopes them.
-/

namespace MigrationScript

/-! ## SQLite / Python values

A database cell as the script sees it through the `sqlite3` driver:
SQLite's NULL, INTEGER, TEXT and BLOB storage classes, plus Python `bool`,
which conversion can produce.  REAL (floating point) is out of scope of
this embedding. -/

inductive Value where
  | null
  | int (n : Int)
  | text (s : String)
  | blob (bytes : List Nat)
  | bool (b : Bool)
  deriving DecidableEq

/-- Python truthiness of a database value (`bool(value)`):
zero / empty string / empty bytes are falsy, everything else truthy. -/
def truthy : Value → Bool
  | .null => false
  | .int n => decide (n ≠ 0)
  | .text s => decide (s ≠ "")
  | .blob b => decide (b ≠ [])
  | .bool b => b

/-! ## JSON data model

Model of the part of Python's `json` library that the script uses:
`json.loads` (parse) and `json.dumps` (serialize with the default
`", "` / `": "` separators).  Numbers are modelled as integers —
floating-point literals are outside the scope of the embedding — and
string escaping is modelled for the quote and backslash characters,
other characters passing through literally. -/

inductive Json where
  | null
  | bool (b : Bool)
  | num (n : Int)
  | str (s : String)
  | arr (elems : List Json)
  | obj (members : List (String × Json))

mutual

/-- Structural equality test for JSON values (the nesting through `List`
rules out the derived instance, so it is written as a mutual recursion). -/
def jsonBeq : Json → Json → Bool
  | .arr u, .arr w => jsonBeqList u w
  | .obj u, .obj w => jsonBeqMem u w
  | .null, .null => true
  | .bool u, .bool w => u == w
  | .num u, .num w => u == w
  | .str u, .str w => u == w
  | _, _ => false

/-- Positionwise structural equality of JSON value lists. -/
def jsonBeqList : List Json → List Json → Bool
  | u :: us, w :: ws => jsonBeq u w && jsonBeqList us ws
  | [], [] => true
  | _, _ => false

/-- Positionwise structural equality of object member lists. -/
def jsonBeqMem : List (String × Json) → List (String × Json) → Bool
  | p :: ps, q :: qs => p.1 == q.1 && jsonBeq p.2 q.2 && jsonBeqMem ps qs
  | [], [] => true
  | _, _ => false

end

mutual

theorem jsonBeq_iff : ∀ a b : Json, jsonBeq a b = true ↔ a = b
  | .arr u, .arr w => by simp [jsonBeq, jsonBeqList_iff u w]
  | .obj u, .obj w => by simp [jsonBeq, jsonBeqMem_iff u w]
  | .null, .null => by simp [jsonBeq]
  | .bool _, .bool _ => by simp [jsonBeq]
  | .num _, .num _ => by simp [jsonBeq]
  | .str _, .str _ => by simp [jsonBeq]
  | .bool _, .null | .num _, .null | .str _, .null
  | .arr _, .null | .obj _, .null
  | .null, .bool _ | .num _, .bool _ | .str _, .bool _
  | .arr _, .bool _ | .obj _, .bool _
  | .null, .num _ | .bool _, .num _ | .str _, .num _
  | .arr _, .num _ | .obj _, .num _
  | .null, .str _ | .bool _, .str _ | .num _, .str _
  | .arr _, .str _ | .obj _, .str _
  | .null, .arr _ | .bool _, .arr _ | .num _, .arr _
  | .str _, .arr _ | .obj _, .arr _
  | .null, .obj _ | .bool _, .obj _ | .num _, .obj _
  | .str _, .obj _ | .arr _, .obj _ => by simp [jsonBeq]

theorem jsonBeqList_iff : ∀ u w : List Json, jsonBeqList u w = true ↔ u = w
  | x :: us, y :: ws => by
    simp [jsonBeqList, jsonBeq_iff x y, jsonBeqList_iff us ws]
  | [], [] => by simp [jsonBeqList]
  | [], _ :: _ => by simp [jsonBeqList]
  | _ :: _, [] => by simp [jsonBeqList]

theorem jsonBeqMem_iff : ∀ u w : List (String × Json), jsonBeqMem u w = true ↔ u = w
  | (a, x) :: ps, (b, y) :: qs => by
    simp [jsonBeqMem, jsonBeq_iff x y, jsonBeqMem_iff ps qs, Prod.ext_iff, and_assoc]
  | [], [] => by simp [jsonBeqMem]
  | [], _ :: _ => by simp [jsonBeqMem]
  | _ :: _, [] => by simp [jsonBeqMem]

end

instance : DecidableEq Json := fun a b => decidable_of_iff _ (jsonBeq_iff a b)

/-- Decimal digits of a natural number, most significant first; the fuel
argument (any bound above the number) makes the recursion structural. -/
def natToDigitsAux : Nat → Nat → List Char
  | 0, _ => []
  | fuel + 1, n =>
    if n < 10 then [Nat.digitChar n]
    else natToDigitsAux fuel (n / 10) ++ [Nat.digitChar (n % 10)]

/-- Decimal digits of a natural number, most significant first. -/
def natToDigits (n : Nat) : List Char := natToDigitsAux (n + 1) n

theorem natToDigitsAux_congr : ∀ f₁ f₂ n, n < f₁ → n < f₂ →
    natToDigitsAux f₁ n = natToDigitsAux f₂ n
  | f₁ + 1, f₂ + 1, n, h₁, h₂ => by
    simp only [natToDigitsAux]
    by_cases h : n < 10
    · simp [h]
    · have hd : n / 10 < f₁ ∧ n / 10 < f₂ := by omega
      simp [h, natToDigitsAux_congr f₁ f₂ (n / 10) hd.1 hd.2]

/-- The recursion equation of `natToDigits`, free of the fuel argument. -/
theorem natToDigits_eq (n : Nat) : natToDigits n =
    if n < 10 then [Nat.digitChar n]
    else natToDigits (n / 10) ++ [Nat.digitChar (n % 10)] := by
  by_cases h : n < 10
  · simp [natToDigits, natToDigitsAux, h]
  · rw [if_neg h]
    show natToDigitsAux (n + 1) n = _
    simp only [natToDigitsAux, if_neg h]
    rw [natToDigitsAux_congr n (n / 10 + 1) (n / 10) (by omega) (by omega)]
    rfl

/-- Decimal rendering of an integer (Python `repr` of an `int`). -/
def intToChars (n : Int) : List Char :=
  if n < 0 then '-' :: natToDigits n.natAbs else natToDigits n.natAbs

/-- Escape a string body for JSON output: quote and backslash get a
backslash prefix, all other characters pass through. -/
def escapeChars : List Char → List Char
  | [] => []
  | c :: cs =>
    if c = '"' ∨ c = '\\' then '\\' :: c :: escapeChars cs
    else c :: escapeChars cs

mutual

/-- Serialize a JSON value (model of `json.dumps` with its default
separators `", "` and `": "`). -/
def dumpChars : Json → List Char
  | .null => "null".data
  | .bool true => "true".data
  | .bool false => "false".data
  | .num n => intToChars n
  | .str s => '"' :: (escapeChars s.data ++ ['"'])
  | .arr [] => "[]".data
  | .arr (x :: xs) => '[' :: (dumpChars x ++ dumpTail xs ++ [']'])
  | .obj [] => "\x7b\x7d".data
  | .obj (m :: ms) => '\x7b' :: (memberChars m ++ memberTail ms ++ ['\x7d'])

/-- Serialize the second and later elements of an array. -/
def dumpTail : List Json → List Char
  | [] => []
  | x :: xs => ',' :: ' ' :: (dumpChars x ++ dumpTail xs)

/-- Serialize one object member as `"key": value`. -/
def memberChars : String × Json → List Char
  | (k, v) => '"' :: (escapeChars k.data ++ '"' :: ':' :: ' ' :: dumpChars v)

/-- Serialize the second and later members of an object. -/
def memberTail : List (String × Json) → List Char
  | [] => []
  | m :: ms => ',' :: ' ' :: (memberChars m ++ memberTail ms)

end

mutual

/-- Node count of a JSON value, used to bound parser fuel. -/
def nodes : Json → Nat
  | .arr xs => 1 + nodesList xs
  | .obj ms => 1 + nodesMem ms
  | _ => 1

/-- Sum of node counts of a list of JSON values. -/
def nodesList : List Json → Nat
  | [] => 0
  | x :: xs => nodes x + nodesList xs

/-- Sum of node counts of the values of an object member list. -/
def nodesMem : List (String × Json) → Nat
  | [] => 0
  | m :: ms => nodes m.2 + nodesMem ms

end

/-- JSON insignificant whitespace. -/
def isWs (c : Char) : Bool :=
  c = ' ' || c = '\n' || c = '\t' || c = '\r'

/-- Drop leading whitespace. -/
def skipWs : List Char → List Char
  | [] => []
  | c :: cs => if isWs c then skipWs cs else c :: cs

/-- Consume an expected literal character sequence. -/
def eatChars : List Char → List Char → Option (List Char)
  | [], cs => some cs
  | _ :: _, [] => none
  | p :: ps, c :: cs => if c = p then eatChars ps cs else none

/-- Value of a decimal digit character. -/
def digitVal (c : Char) : Nat := c.toNat - '0'.toNat

/-- Read a digit list as a natural number, most significant first. -/
def digitsToNat (cs : List Char) : Nat :=
  cs.foldl (fun a c => a * 10 + digitVal c) 0

/-- Parse a nonempty run of decimal digits. -/
def parseNatTok (cs : List Char) : Option (Nat × List Char) :=
  let ds := cs.takeWhile Char.isDigit
  if ds = [] then none else some (digitsToNat ds, cs.dropWhile Char.isDigit)

/-- Parse an optionally negated decimal integer. -/
def parseIntTok : List Char → Option (Int × List Char)
  | [] => none
  | c :: cs =>
    if c = '-' then (parseNatTok cs).map (fun p => (-(p.1 : Int), p.2))
    else (parseNatTok (c :: cs)).map (fun p => ((p.1 : Int), p.2))

/-- Parse a JSON string body one character at a time; the flag records
that the previous character was an unprocessed backslash. -/
def parseStrAux : Bool → List Char → Option (List Char × List Char)
  | _, [] => none
  | true, d :: rest =>
    if d = '"' ∨ d = '\\' then (parseStrAux false rest).map (fun p => (d :: p.1, p.2))
    else none
  | false, c :: rest =>
    if c = '"' then some ([], rest)
    else if c = '\\' then parseStrAux true rest
    else (parseStrAux false rest).map (fun p => (c :: p.1, p.2))

/-- Parse a JSON string body after the opening quote, returning the
unescaped characters and the input after the closing quote. -/
def parseStrChars : List Char → Option (List Char × List Char) :=
  parseStrAux false

mutual

/-- Fuel-indexed JSON value parser (model of `json.loads`). -/
def parseVal : Nat → List Char → Option (Json × List Char)
  | 0, _ => none
  | fuel + 1, cs =>
    match skipWs cs with
    | [] => none
    | c :: rest =>
      if c = 'n' then (eatChars ['u', 'l', 'l'] rest).map (fun r => (Json.null, r))
      else if c = 't' then (eatChars ['r', 'u', 'e'] rest).map (fun r => (Json.bool true, r))
      else if c = 'f' then (eatChars ['a', 'l', 's', 'e'] rest).map (fun r => (Json.bool false, r))
      else if c = '"' then (parseStrChars rest).map (fun p => (Json.str (String.mk p.1), p.2))
      else if c = '[' then
        match skipWs rest with
        | [] => none
        | d :: r2 =>
          if d = ']' then some (Json.arr [], r2)
          else (parseElems fuel rest).map (fun p => (Json.arr p.1, p.2))
      else if c = '\x7b' then
        match skipWs rest with
        | [] => none
        | d :: r2 =>
          if d = '\x7d' then some (Json.obj [], r2)
          else (parseMembers fuel rest).map (fun p => (Json.obj p.1, p.2))
      else if c = '-' ∨ c.isDigit then
        (parseIntTok (c :: rest)).map (fun p => (Json.num p.1, p.2))
      else none

/-- Parse the elements of a nonempty array up to and including `]`. -/
def parseElems : Nat → List Char → Option (List Json × List Char)
  | 0, _ => none
  | fuel + 1, cs =>
    match parseVal fuel cs with
    | none => none
    | some (j, rest) =>
      match skipWs rest with
      | [] => none
      | d :: r2 =>
        if d = ',' then (parseElems fuel r2).map (fun p => (j :: p.1, p.2))
        else if d = ']' then some ([j], r2)
        else none

/-- Parse the members of a nonempty object up to and including the
closing brace. -/
def parseMembers : Nat → List Char → Option (List (String × Json) × List Char)
  | 0, _ => none
  | fuel + 1, cs =>
    match skipWs cs with
    | [] => none
    | c :: rest =>
      if c = '"' then
        match parseStrChars rest with
        | none => none
        | some (k, rest2) =>
          match skipWs rest2 with
          | [] => none
          | d :: rest3 =>
            if d = ':' then
              match parseVal fuel rest3 with
              | none => none
              | some (v, rest4) =>
                match skipWs rest4 with
                | [] => none
                | e :: rest5 =>
                  if e = ',' then
                    (parseMembers fuel rest5).map
                      (fun p => ((String.mk k, v) :: p.1, p.2))
                  else if e = '\x7d' then some ([(String.mk k, v)], rest5)
                  else none
            else none
      else none

end

/-- Model of `json.loads`: parse a complete JSON document, requiring the
whole input (up to trailing whitespace) to be consumed. -/
def loads (s : String) : Option Json :=
  match parseVal (2 * s.length + 2) s.data with
  | some (j, rest) => if skipWs rest = [] then some j else none
  | none => none

/-- Model of `json.dumps`. -/
def dumps (j : Json) : String := String.mk (dumpChars j)

/-! ## Round trip of the JSON model

`loads (dumps j) = some j`: the canonical re-serialization of a JSON value
parses back to the very same value.  This backs the structured-data
conversion rule's "semantically equal to the original" obligation. -/

theorem natToDigits_ne_nil (n : Nat) : natToDigits n ≠ [] := by
  rw [natToDigits_eq]
  by_cases h : n < 10 <;> simp [h]

theorem natToDigits_digits (n : Nat) : ∀ c ∈ natToDigits n, c.isDigit = true := by
  induction n using Nat.strong_induction_on with
  | _ n ih =>
    rw [natToDigits_eq]
    by_cases h : n < 10
    · simp only [if_pos h, List.mem_singleton]
      intro c hc; subst hc
      interval_cases n <;> decide
    · simp only [if_neg h, List.mem_append, List.mem_singleton]
      rintro c (hc | hc)
      · exact ih (n / 10) (by omega) c hc
      · subst hc
        have : n % 10 < 10 := by omega
        interval_cases h10 : n % 10 <;> simp_all <;> decide

theorem digitVal_digitChar (n : Nat) (h : n < 10) : digitVal (Nat.digitChar n) = n := by
  interval_cases n <;> decide

theorem digitsToNat_append (xs : List Char) (c : Char) :
    digitsToNat (xs ++ [c]) = digitsToNat xs * 10 + digitVal c := by
  simp [digitsToNat, List.foldl_append, Nat.mul_comm]

theorem digitsToNat_natToDigits (n : Nat) : digitsToNat (natToDigits n) = n := by
  induction n using Nat.strong_induction_on with
  | _ n ih =>
    rw [natToDigits_eq]
    by_cases h : n < 10
    · simp [h, digitsToNat, digitVal_digitChar n h]
    · rw [if_neg h, digitsToNat_append, ih (n / 10) (by omega),
        digitVal_digitChar (n % 10) (by omega)]
      omega

/-- A decimal digit differs from any character that is not one. -/
theorem ne_of_digit {c d : Char} (h : c.isDigit = true) (hd : d.isDigit = false) :
    c ≠ d := by
  intro e; subst e; rw [h] at hd; exact Bool.noConfusion hd

theorem isWs_false_of_digit {c : Char} (h : c.isDigit = true) : isWs c = false := by
  have h1 := ne_of_digit h (d := ' ') (by decide)
  have h2 := ne_of_digit h (d := '\n') (by decide)
  have h3 := ne_of_digit h (d := '\t') (by decide)
  have h4 := ne_of_digit h (d := '\r') (by decide)
  simp [isWs, h1, h2, h3, h4]

/-- The input does not begin with a decimal digit (token boundary for
number parsing). -/
def noDigitHead : List Char → Prop
  | [] => True
  | c :: _ => c.isDigit = false

theorem takeWhile_append_of_all {p : Char → Bool} {xs ys : List Char}
    (hxs : ∀ x ∈ xs, p x = true) (hys : ∀ y ∈ ys.head?, p y = false) :
    (xs ++ ys).takeWhile p = xs ∧ (xs ++ ys).dropWhile p = ys := by
  induction xs with
  | nil =>
    simp only [List.nil_append]
    cases ys with
    | nil => simp
    | cons y t =>
      have := hys y (by simp)
      simp [List.takeWhile, List.dropWhile, this]
  | cons x xs ih =>
    have hx := hxs x (by simp)
    have ih' := ih (fun a ha => hxs a (by simp [ha]))
    simp [List.takeWhile, List.dropWhile, hx, ih'.1, ih'.2]

theorem parseNatTok_spec {ds rest : List Char} (h : ∀ c ∈ ds, c.isDigit = true)
    (hne : ds ≠ []) (hrest : noDigitHead rest) :
    parseNatTok (ds ++ rest) = some (digitsToNat ds, rest) := by
  have hb : ∀ y ∈ rest.head?, Char.isDigit y = false := by
    cases rest with
    | nil => simp
    | cons r t => intro y hy; simp only [List.head?] at hy
                  cases hy; exact hrest
  have := takeWhile_append_of_all h hb
  simp [parseNatTok, this.1, this.2, hne]

theorem intToChars_neg (n : Int) (h : n < 0) :
    intToChars n = '-' :: natToDigits n.natAbs := by
  simp [intToChars, h]

theorem intToChars_nonneg (n : Int) (h : ¬n < 0) :
    intToChars n = natToDigits n.natAbs := by
  simp [intToChars, h]

theorem parseIntTok_dump (n : Int) (rest : List Char) (hrest : noDigitHead rest) :
    parseIntTok (intToChars n ++ rest) = some (n, rest) := by
  by_cases h : n < 0
  · rw [intToChars_neg n h]
    show parseIntTok ('-' :: (natToDigits n.natAbs ++ rest)) = _
    simp only [parseIntTok, if_pos rfl]
    rw [parseNatTok_spec (natToDigits_digits _) (natToDigits_ne_nil _) hrest]
    show some (-(digitsToNat (natToDigits n.natAbs) : Int), rest) = _
    rw [digitsToNat_natToDigits]
    have he : -((n.natAbs : Nat) : Int) = n := by omega
    rw [he]
  · rw [intToChars_nonneg n h]
    obtain ⟨c, t, hct⟩ : ∃ c t, natToDigits n.natAbs = c :: t := by
      cases hnd : natToDigits n.natAbs with
      | nil => exact absurd hnd (natToDigits_ne_nil _)
      | cons c t => exact ⟨c, t, rfl⟩
    have hcd : c.isDigit = true := natToDigits_digits _ c (by rw [hct]; simp)
    rw [hct]
    show parseIntTok (c :: (t ++ rest)) = _
    simp only [parseIntTok, if_neg (ne_of_digit hcd (d := '-') (by decide))]
    have : c :: (t ++ rest) = (c :: t) ++ rest := rfl
    rw [this, ← hct,
      parseNatTok_spec (natToDigits_digits _) (natToDigits_ne_nil _) hrest]
    show some ((digitsToNat (natToDigits n.natAbs) : Int), rest) = _
    rw [digitsToNat_natToDigits]
    have he : ((n.natAbs : Nat) : Int) = n := by omega
    rw [he]

theorem parseStrChars_escape (l rest : List Char) :
    parseStrChars (escapeChars l ++ '"' :: rest) = some (l, rest) := by
  unfold parseStrChars
  induction l with
  | nil => simp [escapeChars, parseStrAux]
  | cons c cs ih =>
    by_cases h : c = '"' ∨ c = '\\'
    · simp only [escapeChars, if_pos h, List.cons_append]
      rw [show parseStrAux false ('\\' :: (c :: (escapeChars cs ++ '"' :: rest))) =
        parseStrAux true (c :: (escapeChars cs ++ '"' :: rest)) by
          simp [parseStrAux]]
      simp [parseStrAux, h, ih]
    · have hq : ¬c = '"' := fun e => h (Or.inl e)
      have hb : ¬c = '\\' := fun e => h (Or.inr e)
      simp only [escapeChars, if_neg h, List.cons_append]
      simp [parseStrAux, hq, hb, ih]

theorem skipWs_cons_not {c : Char} (cs : List Char) (h : isWs c = false) :
    skipWs (c :: cs) = c :: cs := by
  simp [skipWs, h]

theorem skipWs_ws_append {pad : List Char} (cs : List Char)
    (h : ∀ c ∈ pad, isWs c = true) : skipWs (pad ++ cs) = skipWs cs := by
  induction pad with
  | nil => simp
  | cons p ps ih =>
    have hp := h p (by simp)
    simp only [List.cons_append, skipWs, hp, if_pos]
    exact ih (fun c hc => h c (by simp [hc]))

theorem nodes_pos : ∀ j, 1 ≤ nodes j
  | .null | .bool _ | .num _ | .str _ => le_refl 1
  | .arr xs => by simp [nodes]
  | .obj ms => by simp [nodes]

/-- A character that may open a serialized JSON value without confusing
the surrounding parser state. -/
abbrev okHead (c : Char) : Prop :=
  isWs c = false ∧ c ≠ ']' ∧ c ≠ '\x7d' ∧ c ≠ ','

theorem okHead_of_digit {c : Char} (h : c.isDigit = true) : okHead c :=
  ⟨isWs_false_of_digit h, ne_of_digit h (by decide), ne_of_digit h (by decide),
    ne_of_digit h (by decide)⟩

/-- The first character of a serialized JSON value: never whitespace,
never a closing bracket, brace or comma, so the surrounding parser state
is unambiguous. -/
theorem dumpChars_cons (j : Json) :
    ∃ c t, dumpChars j = c :: t ∧ okHead c := by
  cases j with
  | null => exact ⟨'n', _, rfl, by decide⟩
  | bool b =>
    cases b with
    | true => exact ⟨'t', _, rfl, by decide⟩
    | false => exact ⟨'f', _, rfl, by decide⟩
  | num n =>
    by_cases h : n < 0
    · exact ⟨'-', _, by rw [dumpChars, intToChars_neg n h], by decide⟩
    · obtain ⟨c, t, hct⟩ : ∃ c t, natToDigits n.natAbs = c :: t := by
        cases hnd : natToDigits n.natAbs with
        | nil => exact absurd hnd (natToDigits_ne_nil _)
        | cons c t => exact ⟨c, t, rfl⟩
      have hcd : c.isDigit = true := natToDigits_digits _ c (by rw [hct]; simp)
      exact ⟨c, t, by rw [dumpChars, intToChars_nonneg n h, hct],
        okHead_of_digit hcd⟩
  | str s => exact ⟨'"', _, rfl, by decide⟩
  | arr xs =>
    cases xs with
    | nil => exact ⟨'[', _, rfl, by decide⟩
    | cons x t => exact ⟨'[', _, rfl, by decide⟩
  | obj ms =>
    cases ms with
    | nil => exact ⟨'\x7b', _, rfl, by decide⟩
    | cons m t => exact ⟨'\x7b', _, rfl, by decide⟩

theorem parseVal_ws_lead (fuel : Nat) (pad cs : List Char)
    (h : ∀ c ∈ pad, isWs c = true) :
    parseVal fuel (pad ++ cs) = parseVal fuel cs := by
  cases fuel with
  | zero => rfl
  | succ fuel => simp only [parseVal]; rw [skipWs_ws_append cs h]

theorem noDigitHead_dumpTail (xs : List Json) (rest : List Char) :
    noDigitHead (dumpTail xs ++ ']' :: rest) := by
  cases xs with
  | nil => show (']' : Char).isDigit = false; decide
  | cons y ys => show (',' : Char).isDigit = false; decide

theorem noDigitHead_memberTail (ms : List (String × Json)) (rest : List Char) :
    noDigitHead (memberTail ms ++ '\x7d' :: rest) := by
  cases ms with
  | nil => show ('\x7d' : Char).isDigit = false; decide
  | cons m ms' => show (',' : Char).isDigit = false; decide

theorem intToChars_head (n : Int) :
    ∃ c t, intToChars n = c :: t ∧ (c = '-' ∨ c.isDigit = true) := by
  by_cases h : n < 0
  · exact ⟨'-', _, by rw [intToChars_neg n h], Or.inl rfl⟩
  · obtain ⟨c, t, hct⟩ : ∃ c t, natToDigits n.natAbs = c :: t := by
      cases hnd : natToDigits n.natAbs with
      | nil => exact absurd hnd (natToDigits_ne_nil _)
      | cons c t => exact ⟨c, t, rfl⟩
    exact ⟨c, t, by rw [intToChars_nonneg n h, hct],
      Or.inr (natToDigits_digits _ c (by rw [hct]; simp))⟩

theorem parseVal_num (fuel : Nat) (n : Int) (rest : List Char)
    (hrest : noDigitHead rest) :
    parseVal (fuel + 1) (intToChars n ++ rest) = some (Json.num n, rest) := by
  obtain ⟨c, t, hct, hc⟩ := intToChars_head n
  have hws : isWs c = false := by
    rcases hc with h | h
    · subst h; decide
    · exact isWs_false_of_digit h
  have hne : ∀ d : Char, d ≠ '-' → d.isDigit = false → c ≠ d := by
    intro d hd1 hd2
    rcases hc with h | h
    · subst h; exact fun e => hd1 e.symm
    · exact ne_of_digit h hd2
  have h1 : c ≠ 'n' := hne 'n' (by decide) (by decide)
  have h2 : c ≠ 't' := hne 't' (by decide) (by decide)
  have h3 : c ≠ 'f' := hne 'f' (by decide) (by decide)
  have h4 : c ≠ '"' := hne '"' (by decide) (by decide)
  have h5 : c ≠ '[' := hne '[' (by decide) (by decide)
  have h6 : c ≠ '\x7b' := hne '\x7b' (by decide) (by decide)
  have hd : parseIntTok (c :: (t ++ rest)) = some (n, rest) := by
    have : c :: (t ++ rest) = intToChars n ++ rest := by rw [hct]; rfl
    rw [this, parseIntTok_dump n rest hrest]
  rw [hct, List.cons_append]
  simp only [parseVal]
  rw [skipWs_cons_not _ hws]
  simp only [h1, h2, h3, h4, h5, h6, if_false, if_true, ite_false, ite_true,
    if_pos hc, hd, Option.map]

/-- Completeness of the parser against the serializer, all three mutual
parsers at once, by induction on fuel. -/
theorem parse_dump (fuel : Nat) :
    (∀ j rest, 2 * nodes j ≤ fuel → noDigitHead rest →
      parseVal fuel (dumpChars j ++ rest) = some (j, rest)) ∧
    (∀ x xs rest pad, 1 + 2 * (nodes x + nodesList xs) ≤ fuel →
      (∀ c ∈ pad, isWs c = true) →
      parseElems fuel (pad ++ (dumpChars x ++ (dumpTail xs ++ ']' :: rest))) =
        some (x :: xs, rest)) ∧
    (∀ k v ms rest pad, 1 + 2 * (nodes v + nodesMem ms) ≤ fuel →
      (∀ c ∈ pad, isWs c = true) →
      parseMembers fuel
          (pad ++ (memberChars (k, v) ++ (memberTail ms ++ '\x7d' :: rest))) =
        some ((k, v) :: ms, rest)) := by
  induction fuel with
  | zero =>
    refine ⟨fun j _ hf _ => absurd hf (by have := nodes_pos j; omega),
      fun _ _ _ _ hf _ => absurd hf (by omega),
      fun _ _ _ _ _ hf _ => absurd hf (by omega)⟩
  | succ fuel ih =>
    obtain ⟨ihV, ihE, ihM⟩ := ih
    refine ⟨?_, ?_, ?_⟩
    · intro j rest hf hrest
      cases j with
      | null =>
        show parseVal (fuel + 1) (('n' :: ['u', 'l', 'l']) ++ rest) = _
        simp only [parseVal, List.cons_append]
        rw [skipWs_cons_not _ (by decide)]
        simp [eatChars]
      | bool b =>
        cases b with
        | true =>
          show parseVal (fuel + 1) (('t' :: ['r', 'u', 'e']) ++ rest) = _
          simp only [parseVal, List.cons_append]
          rw [skipWs_cons_not _ (by decide)]
          simp [eatChars]
        | false =>
          show parseVal (fuel + 1) (('f' :: ['a', 'l', 's', 'e']) ++ rest) = _
          simp only [parseVal, List.cons_append]
          rw [skipWs_cons_not _ (by decide)]
          simp [eatChars]
      | num n => exact parseVal_num fuel n rest hrest
      | str s =>
        show parseVal (fuel + 1) ('"' :: (escapeChars s.data ++ ['"']) ++ rest) = _
        rw [List.cons_append, List.append_assoc]
        simp only [parseVal]
        rw [skipWs_cons_not _ (by decide)]
        rw [show (['"'] ++ rest : List Char) = '"' :: rest from rfl]
        simp [parseStrChars_escape]
      | arr xs =>
        cases xs with
        | nil =>
          show parseVal (fuel + 1) (('[' :: [']']) ++ rest) = _
          simp only [parseVal, List.cons_append]
          rw [skipWs_cons_not _ (by decide)]
          simp only [List.nil_append]
          rw [show skipWs (']' :: rest) = ']' :: rest from
            skipWs_cons_not _ (by decide)]
          simp
        | cons x xs' =>
          obtain ⟨c, t, hct, hcws, hcrb, _, _⟩ := dumpChars_cons x
          simp only [nodes, nodesList] at hf
          have hE : parseElems fuel
              (dumpChars x ++ (dumpTail xs' ++ ']' :: rest)) =
              some (x :: xs', rest) := by
            have := ihE x xs' rest [] (by omega) (by simp)
            simpa using this
          show parseVal (fuel + 1)
              ('[' :: (dumpChars x ++ dumpTail xs' ++ [']']) ++ rest) = _
          simp only [parseVal, List.cons_append, List.append_assoc, List.nil_append]
          rw [skipWs_cons_not _ (by decide)]
          rw [hct] at hE ⊢
          simp only [List.cons_append] at hE ⊢
          rw [skipWs_cons_not _ hcws]
          simp [hE, hcrb]
      | obj ms =>
        cases ms with
        | nil =>
          show parseVal (fuel + 1) (('\x7b' :: ['\x7d']) ++ rest) = _
          simp only [parseVal, List.cons_append]
          rw [skipWs_cons_not _ (by decide)]
          simp only [List.nil_append]
          rw [show skipWs ('\x7d' :: rest) = '\x7d' :: rest from
            skipWs_cons_not _ (by decide)]
          simp
        | cons m ms' =>
          obtain ⟨k, v⟩ := m
          simp only [nodes, nodesMem] at hf
          have hM : parseMembers fuel
              (memberChars (k, v) ++ (memberTail ms' ++ '\x7d' :: rest)) =
              some ((k, v) :: ms', rest) := by
            have := ihM k v ms' rest [] (by omega) (by simp)
            simpa using this
          show parseVal (fuel + 1)
              ('\x7b' :: (memberChars (k, v) ++ memberTail ms' ++ ['\x7d']) ++ rest) = _
          simp only [parseVal, List.cons_append, List.append_assoc, List.nil_append]
          rw [skipWs_cons_not _ (by decide)]
          rw [show memberChars (k, v) =
            '"' :: (escapeChars k.data ++ '"' :: ':' :: ' ' :: dumpChars v) from rfl] at hM ⊢
          simp only [List.cons_append, List.append_assoc] at hM ⊢
          rw [skipWs_cons_not _ (by decide)]
          simp [hM]
    · intro x xs rest pad hf hpad
      simp only [parseElems]
      rw [parseVal_ws_lead fuel pad _ hpad]
      have hV : parseVal fuel (dumpChars x ++ (dumpTail xs ++ ']' :: rest)) =
          some (x, dumpTail xs ++ ']' :: rest) :=
        ihV x _ (by omega) (noDigitHead_dumpTail xs rest)
      rw [hV]
      cases xs with
      | nil =>
        simp only [dumpTail, List.nil_append]
        rw [show skipWs (']' :: rest) = ']' :: rest from
          skipWs_cons_not _ (by decide)]
        simp
      | cons y ys =>
        simp only [nodesList] at hf
        have hpos := nodes_pos x
        simp only [dumpTail, List.cons_append, List.append_assoc]
        rw [skipWs_cons_not _ (by decide)]
        have hE2 := ihE y ys rest [' '] (by omega)
          (by intro c hc; simp at hc; subst hc; decide)
        simp only [List.singleton_append] at hE2
        simp [hE2]
    · intro k v ms rest pad hf hpad
      simp only [parseMembers]
      rw [skipWs_ws_append _ hpad]
      rw [show memberChars (k, v) =
        '"' :: (escapeChars k.data ++ '"' :: ':' :: ' ' :: dumpChars v) from rfl]
      simp only [List.cons_append, List.append_assoc]
      rw [skipWs_cons_not _ (by decide)]
      have hstr := parseStrChars_escape k.data
        (':' :: ' ' :: (dumpChars v ++ (memberTail ms ++ '\x7d' :: rest)))
      have hVp : parseVal fuel
          (' ' :: (dumpChars v ++ (memberTail ms ++ '\x7d' :: rest))) =
          some (v, memberTail ms ++ '\x7d' :: rest) := by
        rw [show (' ' :: (dumpChars v ++ (memberTail ms ++ '\x7d' :: rest))) =
          [' '] ++ (dumpChars v ++ (memberTail ms ++ '\x7d' :: rest)) from rfl,
          parseVal_ws_lead fuel [' '] _
            (by intro c hc; simp at hc; subst hc; decide),
          ihV v (memberTail ms ++ '\x7d' :: rest) (by omega)
            (noDigitHead_memberTail ms rest)]
      cases ms with
      | nil =>
        simp only [memberTail, List.nil_append] at hstr hVp ⊢
        simp [hstr, hVp, skipWs, isWs]
      | cons m' ms' =>
        obtain ⟨k', v'⟩ := m'
        simp only [nodesMem, nodes] at hf
        have hposv := nodes_pos v
        have hM2 := ihM k' v' ms' rest [' '] (by omega)
          (by intro c hc; simp at hc; subst hc; decide)
        simp only [List.singleton_append] at hM2
        simp only [memberTail, List.cons_append, List.append_assoc] at hstr hVp ⊢
        simp [hstr, hVp, hM2, skipWs, isWs]

theorem intToChars_ne_nil (n : Int) : intToChars n ≠ [] := by
  by_cases h : n < 0
  · rw [intToChars_neg n h]; simp
  · rw [intToChars_nonneg n h]; exact natToDigits_ne_nil _

mutual

theorem nodes_le_len : ∀ j, nodes j ≤ (dumpChars j).length
  | .null => by simp [nodes, dumpChars]
  | .bool b => by cases b <;> simp [nodes, dumpChars]
  | .num n => by
    have := List.length_pos.mpr (intToChars_ne_nil n)
    simp only [nodes, dumpChars]
    omega
  | .str s => by simp [nodes, dumpChars]
  | .arr [] => by simp [nodes, nodesList, dumpChars]
  | .arr (x :: xs) => by
    have h1 := nodes_le_len x
    have h2 := nodesList_le_len xs
    simp only [nodes, nodesList, dumpChars, List.length_cons, List.length_append,
      List.length_singleton]
    omega
  | .obj [] => by simp [nodes, nodesMem, dumpChars]
  | .obj ((k, v) :: ms) => by
    have h1 := nodes_le_len v
    have h2 := nodesMem_le_len ms
    simp only [nodes, nodesMem, dumpChars, memberChars, List.length_cons,
      List.length_append, List.length_singleton]
    omega

theorem nodesList_le_len : ∀ xs, nodesList xs ≤ (dumpTail xs).length
  | [] => by simp [nodesList, dumpTail]
  | x :: xs => by
    have h1 := nodes_le_len x
    have h2 := nodesList_le_len xs
    simp only [nodesList, dumpTail, List.length_cons, List.length_append]
    omega

theorem nodesMem_le_len : ∀ ms, nodesMem ms ≤ (memberTail ms).length
  | [] => by simp [nodesMem, memberTail]
  | (k, v) :: ms => by
    have h1 := nodes_le_len v
    have h2 := nodesMem_le_len ms
    simp only [nodesMem, memberTail, memberChars, List.length_cons,
      List.length_append]
    omega

end

/-- Round trip of the JSON model: the canonical serialization of any JSON
value parses back to the same value. -/
theorem loads_dumps (j : Json) : loads (dumps j) = some j := by
  have hlen : nodes j ≤ (dumpChars j).length := nodes_le_len j
  have hp := (parse_dump (2 * (dumpChars j).length + 2)).1 j [] (by omega) trivial
  rw [List.append_nil] at hp
  show (match parseVal (2 * (String.mk (dumpChars j)).length + 2)
      (String.mk (dumpChars j)).data with
    | some (j, rest) => if skipWs rest = [] then some j else none
    | none => none) = some j
  have hl : (String.mk (dumpChars j)).length = (dumpChars j).length := rfl
  have hd : (String.mk (dumpChars j)).data = dumpChars j := rfl
  rw [hl, hd, hp]
  simp [skipWs]

/-! ## Static configuration of the migration script

Transcribed from the module-level constants of
`scripts/migrate-sqlite-to-pg.py`. -/

/-- Table migration order (respecting foreign key dependencies). -/
def MIGRATION_ORDER : List String :=
  ["users", "conversation_sessions", "custom_agents", "conversation_messages",
   "agent_usage_logs", "agent_feedback", "audit_logs", "alert_history",
   "user_memories", "memory_tags", "research_sessions", "research_steps",
   "agent_marketplace", "agent_reviews", "agent_installations",
   "canvas_documents", "canvas_versions", "external_connections",
   "external_files", "api_usage"]

/-- Columns converted by the boolean rule. -/
def BOOLEAN_COLUMNS : List (String × List String) :=
  [("users", ["is_active"]),
   ("custom_agents", ["enabled"]),
   ("agent_marketplace", ["is_free", "is_featured", "is_verified"]),
   ("alert_history", ["acknowledged"]),
   ("agent_usage_logs", ["success"]),
   ("canvas_documents", ["is_shared"]),
   ("external_connections", ["is_active"])]

/-- Columns converted by the structured-data (JSON) rule. -/
def JSON_COLUMNS : List (String × List String) :=
  [("conversation_sessions", ["metadata"]),
   ("api_usage", ["models"]),
   ("agent_feedback", ["tags"]),
   ("custom_agents", ["keywords"]),
   ("audit_logs", ["details"]),
   ("alert_history", ["data"]),
   ("agent_marketplace", ["tags"]),
   ("research_sessions", ["key_findings", "sources"]),
   ("research_steps", ["sources"]),
   ("external_connections", ["metadata"])]

/-- Columns converted by the timestamp rule. -/
def DATETIME_COLUMNS : List (String × List String) :=
  [("users", ["created_at", "updated_at", "last_login"]),
   ("conversation_sessions", ["created_at", "updated_at"]),
   ("conversation_messages", ["created_at"]),
   ("api_usage", ["created_at", "updated_at"]),
   ("agent_usage_logs", ["timestamp"]),
   ("agent_feedback", ["created_at"]),
   ("custom_agents", ["created_at", "updated_at"]),
   ("audit_logs", ["timestamp"]),
   ("alert_history", ["created_at", "acknowledged_at"]),
   ("user_memories", ["last_accessed", "created_at", "updated_at", "expires_at"]),
   ("memory_tags", []),
   ("research_sessions", ["created_at", "updated_at", "completed_at"]),
   ("research_steps", ["created_at"]),
   ("agent_marketplace", ["created_at", "updated_at", "published_at"]),
   ("agent_reviews", ["created_at"]),
   ("agent_installations", ["installed_at"]),
   ("canvas_documents", ["created_at", "updated_at"]),
   ("canvas_versions", ["created_at"]),
   ("external_connections", ["token_expires_at", "created_at", "updated_at"]),
   ("external_files", ["last_synced", "created_at"])]

/-- Tables with a destination-generated (SERIAL) primary key and the
key column. -/
def SERIAL_COLUMNS : List (String × String) :=
  [("conversation_messages", "id"), ("api_usage", "id"),
   ("agent_usage_logs", "id"), ("audit_logs", "id"), ("alert_history", "id"),
   ("memory_tags", "id"), ("research_steps", "id"),
   ("agent_installations", "id"), ("canvas_versions", "id")]

/-- The Python membership test `table in M and column in M[table]`. -/
def colRule (m : List (String × List String)) (t c : String) : Bool :=
  match m.find? (fun p => p.1 = t) with
  | some p => p.2.contains c
  | none => false

/-! ## Migration statistics (`MigrationStats`) -/

/-- The mutable statistics aggregate of the script. -/
structure MigrationStats where
  tables_migrated : Nat
  total_rows : Nat
  errors : List String
  skipped_rows : List (String × Nat)
  deriving DecidableEq

/-- `MigrationStats.__init__`. -/
def initStats : MigrationStats :=
  { tables_migrated := 0, total_rows := 0, errors := [], skipped_rows := [] }

/-- Decimal rendering of a natural number. -/
def natRepr (n : Nat) : String := String.mk (natToDigits n)

/-- The error line `f"  \x7btable\x7d row \x7brow_num\x7d: \x7berror\x7d"`. -/
def errStr (table : String) (rowNum : Nat) (error : String) : String :=
  "  " ++ table ++ " row " ++ natRepr rowNum ++ ": " ++ error

/-- Increment a table's entry of the skipped-row dictionary, inserting it
with count 1 when absent (Python dict update). -/
def bumpSkipped : List (String × Nat) → String → List (String × Nat)
  | [], t => [(t, 1)]
  | (k, n) :: rest, t =>
    if k = t then (k, n + 1) :: rest else (k, n) :: bumpSkipped rest t

/-- `MigrationStats.add_error`: append one formatted error line and count
one skipped row for the table. -/
def add_error (stats : MigrationStats) (table : String) (rowNum : Nat)
    (error : String) : MigrationStats :=
  { stats with
    errors := stats.errors ++ [errStr table rowNum error],
    skipped_rows := bumpSkipped stats.skipped_rows table }

/-! ## Value conversion (`convert_boolean`, `convert_json`,
`convert_datetime`, `convert_value`) -/

/-- `convert_boolean`: `None` maps to `None`, any other value to its
Python truthiness. -/
def convert_boolean : Value → Value
  | .null => .null
  | v => .bool (truthy v)

/-- `json.dumps(value)` applied to a raw non-text database value: integers
and booleans serialize, a bytes object raises `TypeError` (which
`convert_json` does not catch). -/
def pyJsonDumpValue : Value → Except String Value
  | .int n => .ok (.text (dumps (Json.num n)))
  | .bool b => .ok (.text (dumps (Json.bool b)))
  | .null => .ok (.text "null")
  | .text s => .ok (.text (dumps (Json.str s)))
  | .blob _ => .error "Object of type bytes is not JSON serializable"

/-- `convert_json`: textual values are parsed and re-serialized, with
parse failure converting to null; non-text values are serialized directly
without a parse step. -/
def convert_json : Value → Except String Value
  | .null => .ok .null
  | .text s =>
    match loads s with
    | some j => .ok (.text (dumps j))
    | none => .ok .null
  | v => pyJsonDumpValue v

/-- Python `str()` of a database value, as `convert_datetime` applies it
to non-text values.  The rendering of a bytes object is abstracted; no
claim depends on it. -/
def pyStr : Value → String
  | .null => "None"
  | .int n => String.mk (intToChars n)
  | .text s => s
  | .bool true => "True"
  | .bool false => "False"
  | .blob _ => "b'..'"

/-- `convert_datetime`: text passes through, non-text is rendered with
`str()`. -/
def convert_datetime : Value → Value
  | .null => .null
  | .text s => .text s
  | v => .text (pyStr v)

/-- `convert_value`: dispatch on the static column rule sets, with null
always passing through. -/
def convert_value (table column : String) (value : Value) : Except String Value :=
  if value = .null then .ok .null
  else if colRule BOOLEAN_COLUMNS table column then .ok (convert_boolean value)
  else if colRule JSON_COLUMNS table column then convert_json value
  else if colRule DATETIME_COLUMNS table column then .ok (convert_datetime value)
  else .ok value

/-! ## Row conversion (inner loops of `migrate_table`) -/

/-- Convert one row column by column (`for col_idx, value in enumerate(row)`);
the column name is `columns[col_idx]`, and an out-of-range index raises
`IndexError` exactly as the Python expression would. -/
def convert_row (table : String) (columns : List String) :
    Nat → List Value → Except String (List Value)
  | _, [] => .ok []
  | i, v :: vs =>
    match columns[i]? with
    | none => .error "list index out of range"
    | some col =>
      match convert_value table col v with
      | .error e => .error e
      | .ok cv =>
        match convert_row table columns (i + 1) vs with
        | .error e => .error e
        | .ok cvs => .ok (cv :: cvs)

/-- Convert all rows (`for row_num, row in enumerate(rows, 1)`): a failed
row is recorded with `add_error` and skipped, conversion continues. -/
def convertRowsAux (table : String) (columns : List String) :
    Nat → List (List Value) → MigrationStats →
    List (List Value) × MigrationStats
  | _, [], stats => ([], stats)
  | rowNum, row :: rest, stats =>
    match convert_row table columns 0 row with
    | .ok cr =>
      let next := convertRowsAux table columns (rowNum + 1) rest stats
      (cr :: next.1, next.2)
    | .error e =>
      convertRowsAux table columns (rowNum + 1) rest
        (add_error stats table rowNum e)

/-- Row conversion of a whole table, 1-based row numbering. -/
def convertRows (table : String) (columns : List String)
    (rows : List (List Value)) (stats : MigrationStats) :
    List (List Value) × MigrationStats :=
  convertRowsAux table columns 1 rows stats

/-! ## The source store (SQLite connection at its interface)

A table maps to its declared column list and its rows; `PRAGMA
table_info` on a missing table yields no columns. -/

structure SQLiteDB where
  tables : List (String × List String × List (List Value))

def getTable (db : SQLiteDB) (t : String) :
    Option (List String × List (List Value)) :=
  (db.tables.find? (fun p => p.1 = t)).map (fun p => p.2)

/-- `get_table_columns`: column names from `PRAGMA table_info(table)`,
empty when the table does not exist. -/
def get_table_columns (db : SQLiteDB) (t : String) : List String :=
  match getTable db t with
  | none => []
  | some p => p.1

/-- `SELECT * FROM table`, all rows. -/
def fetch_rows (db : SQLiteDB) (t : String) : List (List Value) :=
  match getTable db t with
  | none => []
  | some p => p.2

/-! ## The destination store (PostgreSQL connection at its interface)

The destination schema is static: per table its column list, the
projection its unique constraint compares (`ON CONFLICT` target), and the
indices of its NOT NULL columns.  The connection state carries the table
contents, the sequence values and the session's referential-integrity
toggle. -/

structure PGSchema where
  columns : String → Option (List String)
  keyOf : String → List Value → List Value
  notNull : String → List Nat

structure DestState where
  data : String → List (List Value)
  seqs : String → Int
  fkEnforced : Bool

/-- Why a single `INSERT` statement of the batch would fail: a parameter
count mismatch, or a NOT NULL violation. -/
def rowError (cols : List String) (nn : List Nat) (r : List Value) :
    Option String :=
  if r.length ≠ cols.length then some "not all arguments converted"
  else if nn.any (fun i => r.getD i Value.null = Value.null) then
    some "null value violates not-null constraint"
  else none

/-- Sequential execution of the batch's statements with
`ON CONFLICT DO NOTHING`: a row whose conflict key is already present is
skipped silently, otherwise it is appended; the first failing statement
aborts the whole batch.  Returns the new table contents and the number of
rows actually written. -/
def insertAll (key : List Value → List Value) (cols : List String)
    (nn : List Nat) :
    List (List Value) → Nat → List (List Value) →
    Except String (List (List Value) × Nat)
  | acc, n, [] => .ok (acc, n)
  | acc, n, r :: rs =>
    match rowError cols nn r with
    | some e => .error e
    | none =>
      if acc.any (fun row => key row = key r) then insertAll key cols nn acc n rs
      else insertAll key cols nn (acc ++ [r]) (n + 1) rs

/-- `pg_cursor.executemany(insert_sql, converted_rows)` with the statement
`INSERT INTO t (cols) VALUES (...) ON CONFLICT DO NOTHING`: fails when the
destination lacks the table or one of the named columns, else inserts. -/
def executemany (schema : PGSchema) (t : String) (cols : List String)
    (existing rows : List (List Value)) :
    Except String (List (List Value) × Nat) :=
  match schema.columns t with
  | none => .error ("relation " ++ t ++ " does not exist")
  | some destCols =>
    if cols.all destCols.contains then
      insertAll (schema.keyOf t) cols (schema.notNull t) existing 0 rows
    else .error "column does not exist"

/-! ## Per-table migration (`migrate_table`) -/

/-- `migrate_table`: read columns and rows, convert rows (recording
row-level errors), batch-insert the converted rows in one transaction;
on batch failure roll back (destination unchanged), record one
table-level error with row number 0, and report zero rows. -/
def migrate_table (sdb : SQLiteDB) (schema : PGSchema) (st : DestState)
    (table : String) (stats : MigrationStats) :
    DestState × MigrationStats × Nat :=
  let columns := get_table_columns sdb table
  if columns = [] then (st, stats, 0)
  else
    let rows := fetch_rows sdb table
    if rows = [] then (st, stats, 0)
    else
      let conv := convertRows table columns rows stats
      if conv.1 = [] then (st, conv.2, 0)
      else
        match executemany schema table columns (st.data table) conv.1 with
        | .ok res =>
          ({ st with data := fun u => if u = table then res.1 else st.data u },
            { conv.2 with total_rows := conv.2.total_rows + res.2 }, res.2)
        | .error e =>
          (st, add_error conv.2 table 0 ("Batch insert failed: " ++ e), 0)

/-! ## Orchestration (`main`, migration phase onwards) -/

inductive Event where
  | suspendFK
  | tableDone (t : String)
  | restoreFK
  | finished (code : Nat)
  deriving DecidableEq

/-- The `for table in MIGRATION_ORDER` loop: migrate each table and then
increment `stats.tables_migrated`, unconditionally. -/
def migrateTables (sdb : SQLiteDB) (schema : PGSchema) :
    List String → DestState → MigrationStats →
    DestState × MigrationStats × List Event
  | [], st, stats => (st, stats, [])
  | t :: ts, st, stats =>
    let r := migrate_table sdb schema st t stats
    let next := migrateTables sdb schema ts r.1
      { r.2.1 with tables_migrated := r.2.1.tables_migrated + 1 }
    (next.1, next.2.1, Event.tableDone t :: next.2.2)

/-- Outcome of one table's sequence repair. -/
inductive SeqOutcome where
  | reset (seq : String) (v : Int)
  | skipped (t : String)
  | failed (t : String) (msg : String)
  deriving DecidableEq

/-- `SELECT MAX(col) FROM table`: SQL MAX over the integer values of the
column, NULL (none) when there are no rows (NULLs are ignored). -/
def maxCol (rows : List (List Value)) (idx : Nat) : Option Int :=
  rows.foldl (fun acc r =>
    match r.getD idx Value.null with
    | Value.int n =>
      match acc with
      | none => some n
      | some m => some (max m n)
    | _ => acc) none

/-- PostgreSQL sequence-name convention `tablename_columnname_seq`. -/
def seqName (t c : String) : String := t ++ "_" ++ c ++ "_seq"

/-- One iteration of the `reset_sequences` loop: look up the max key and
issue `setval` when the Python truthiness test `if max_val:` passes —
which skips both NULL and 0; any exception is caught and merely printed. -/
def reset_one (schema : PGSchema) (st : DestState) (t c : String) :
    DestState × SeqOutcome :=
  match schema.columns t with
  | none => (st, .failed t ("relation " ++ t ++ " does not exist"))
  | some destCols =>
    match destCols.findIdx? (fun d => d = c) with
    | none => (st, .failed t ("column " ++ c ++ " does not exist"))
    | some idx =>
      match maxCol (st.data t) idx with
      | none => (st, .skipped t)
      | some v =>
        if v = 0 then (st, .skipped t)
        else
          ({ st with seqs := fun u => if u = seqName t c then v else st.seqs u },
            .reset (seqName t c) v)

/-- `reset_sequences`: repair every SERIAL table in turn; a failure never
stops the loop. -/
def reset_sequences (schema : PGSchema) :
    List (String × String) → DestState → DestState × List SeqOutcome
  | [], st => (st, [])
  | (t, c) :: rest, st =>
    let r := reset_one schema st t c
    let next := reset_sequences schema rest r.1
    (next.1, r.2 :: next.2)

/-- `nextval` of a sequence after `setval(seq, v)`:
the next generated value is `v + 1`. -/
def nextval (st : DestState) (seq : String) : Int := st.seqs seq + 1

structure RunResult where
  dest : DestState
  stats : MigrationStats
  outcomes : List SeqOutcome
  events : List Event
  exitCode : Nat

/-- `main` from the point where both connections are established:
suspend referential-integrity enforcement, migrate every table of
`MIGRATION_ORDER`, repair sequences once, restore enforcement, and exit
with status 1 exactly when the aggregated error list is non-empty. -/
def mainRun (sdb : SQLiteDB) (schema : PGSchema) (d0 : DestState) : RunResult :=
  let d1 : DestState := { d0 with fkEnforced := false }
  let m := migrateTables sdb schema MIGRATION_ORDER d1 initStats
  let r := reset_sequences schema SERIAL_COLUMNS m.1
  let d2 : DestState := { r.1 with fkEnforced := true }
  let code := if m.2.1.errors = [] then 0 else 1
  { dest := d2, stats := m.2.1, outcomes := r.2,
    events := Event.suspendFK :: (m.2.2 ++ [Event.restoreFK, Event.finished code]),
    exitCode := code }
/-! ## Characterization of row conversion -/

/-- The converted form of one row when its conversion succeeds. -/
def okRow (table : String) (columns : List String) (r : List Value) :
    Option (List Value) :=
  match convert_row table columns 0 r with
  | .ok cr => some cr
  | .error _ => none

/-- The successfully converted rows, in order. -/
def rowSuccesses (table : String) (columns : List String)
    (rows : List (List Value)) : List (List Value) :=
  rows.filterMap (okRow table columns)

/-- The formatted error lines produced by failing rows, in order,
numbering rows from `i`. -/
def rowFailures (table : String) (columns : List String) :
    Nat → List (List Value) → List String
  | _, [] => []
  | i, r :: rs =>
    match convert_row table columns 0 r with
    | .ok _ => rowFailures table columns (i + 1) rs
    | .error e => errStr table i e :: rowFailures table columns (i + 1) rs

/-- Total of the skipped-row counters. -/
def skippedTotal (st : MigrationStats) : Nat :=
  (st.skipped_rows.map Prod.snd).sum

theorem bumpSkipped_sum : ∀ (l : List (String × Nat)) (t : String),
    ((bumpSkipped l t).map Prod.snd).sum = (l.map Prod.snd).sum + 1
  | [], t => by simp [bumpSkipped]
  | (k, n) :: rest, t => by
    by_cases h : k = t
    · simp [bumpSkipped, h]; omega
    · simp [bumpSkipped, h, bumpSkipped_sum rest t]; omega

theorem convertRowsAux_spec (table : String) (columns : List String) :
    ∀ (rows : List (List Value)) (i : Nat) (st : MigrationStats),
    (convertRowsAux table columns i rows st).1 = rowSuccesses table columns rows ∧
    (convertRowsAux table columns i rows st).2.errors =
      st.errors ++ rowFailures table columns i rows ∧
    (convertRowsAux table columns i rows st).2.tables_migrated = st.tables_migrated ∧
    (convertRowsAux table columns i rows st).2.total_rows = st.total_rows ∧
    skippedTotal (convertRowsAux table columns i rows st).2 =
      skippedTotal st + (rowFailures table columns i rows).length
  | [], i, st => by simp [convertRowsAux, rowSuccesses, rowFailures]
  | row :: rest, i, st => by
    match hr : convert_row table columns 0 row with
    | .ok cr =>
      have ih := convertRowsAux_spec table columns rest (i + 1) st
      simp only [convertRowsAux, hr, rowSuccesses, rowFailures,
        List.filterMap_cons, okRow]
      exact ⟨by simp [ih.1, rowSuccesses], ih.2.1, ih.2.2.1, ih.2.2.2.1, ih.2.2.2.2⟩
    | .error e =>
      have ih := convertRowsAux_spec table columns rest (i + 1)
        (add_error st table i e)
      simp only [convertRowsAux, hr, rowSuccesses, rowFailures,
        List.filterMap_cons, okRow]
      refine ⟨by simp [ih.1, rowSuccesses], ?_, ?_, ?_, ?_⟩
      · rw [ih.2.1]; simp [add_error]
      · rw [ih.2.2.1]; simp [add_error]
      · rw [ih.2.2.2.1]; simp [add_error]
      · rw [ih.2.2.2.2]
        simp [add_error, skippedTotal, bumpSkipped_sum]
        omega

theorem rowFailures_all_ok (table : String) (columns : List String) :
    ∀ (rows : List (List Value)) (i : Nat),
    (∀ r ∈ rows, ∃ cr, convert_row table columns 0 r = .ok cr) →
    rowFailures table columns i rows = []
  | [], i, _ => rfl
  | row :: rest, i, h => by
    obtain ⟨cr, hcr⟩ := h row (by simp)
    simp only [rowFailures, hcr]
    exact rowFailures_all_ok table columns rest (i + 1)
      (fun r hr => h r (by simp [hr]))

theorem rowSuccesses_all_ok (table : String) (columns : List String) :
    ∀ (rows : List (List Value)),
    (∀ r ∈ rows, ∃ cr, convert_row table columns 0 r = .ok cr) →
    (rowSuccesses table columns rows).length = rows.length
  | [], _ => rfl
  | row :: rest, h => by
    obtain ⟨cr, hcr⟩ := h row (by simp)
    simp only [rowSuccesses, List.filterMap_cons, okRow, hcr, List.length_cons]
    rw [show List.filterMap (okRow table columns) rest
      = rowSuccesses table columns rest from rfl]
    rw [rowSuccesses_all_ok table columns rest (fun r hr => h r (by simp [hr]))]

theorem rowFailures_append (table : String) (columns : List String) :
    ∀ (l1 l2 : List (List Value)) (i : Nat),
    (∀ r ∈ l1, ∃ cr, convert_row table columns 0 r = .ok cr) →
    rowFailures table columns i (l1 ++ l2) =
      rowFailures table columns (i + l1.length) l2
  | [], l2, i, _ => by simp [rowFailures]
  | row :: rest, l2, i, h => by
    obtain ⟨cr, hcr⟩ := h row (by simp)
    simp only [List.cons_append, rowFailures, hcr, List.append_eq]
    rw [rowFailures_append table columns rest l2 (i + 1)
      (fun r hr => h r (by simp [hr]))]
    congr 1
    simp [List.length_cons]
    omega

/-! ## Properties of the batch insert -/

theorem insertAll_shape (key : List Value → List Value) (cols : List String)
    (nn : List Nat) :
    ∀ (rows acc : List (List Value)) (n : Nat) (acc' : List (List Value)) (n' : Nat),
    insertAll key cols nn acc n rows = .ok (acc', n') →
    ∃ added, acc' = acc ++ added ∧ n' = n + added.length ∧
      added.length ≤ rows.length
  | [], acc, n, acc', n', h => by
    simp only [insertAll, Except.ok.injEq, Prod.mk.injEq] at h
    exact ⟨[], by simp [← h.1], by simp [← h.2], by simp⟩
  | r :: rs, acc, n, acc', n', h => by
    simp only [insertAll] at h
    match hre : rowError cols nn r with
    | some e => rw [hre] at h; exact absurd h (by simp)
    | none =>
      rw [hre] at h
      by_cases hc : acc.any (fun row => key row = key r)
      · rw [if_pos hc] at h
        obtain ⟨added, ha, hn, hl⟩ := insertAll_shape key cols nn rs acc n acc' n' h
        exact ⟨added, ha, hn, by simp; omega⟩
      · rw [if_neg hc] at h
        obtain ⟨added, ha, hn, hl⟩ :=
          insertAll_shape key cols nn rs (acc ++ [r]) (n + 1) acc' n' h
        exact ⟨r :: added, by simp [ha], by simp [hn]; omega, by simp; omega⟩

theorem insertAll_keys (key : List Value → List Value) (cols : List String)
    (nn : List Nat) :
    ∀ (rows acc : List (List Value)) (n : Nat) (acc' : List (List Value)) (n' : Nat),
    insertAll key cols nn acc n rows = .ok (acc', n') →
    ∀ r ∈ rows, ∃ x ∈ acc', key x = key r
  | [], acc, n, acc', n', h => by simp
  | r :: rs, acc, n, acc', n', h => by
    simp only [insertAll] at h
    match hre : rowError cols nn r with
    | some e => rw [hre] at h; exact absurd h (by simp)
    | none =>
      rw [hre] at h
      by_cases hc : acc.any (fun row => key row = key r)
      · rw [if_pos hc] at h
        intro q hq
        rcases List.mem_cons.mp hq with hq | hq
        · subst hq
          obtain ⟨x, hx, hkx⟩ := List.any_eq_true.mp hc
          obtain ⟨added, ha, _⟩ := insertAll_shape key cols nn rs acc n acc' n' h
          exact ⟨x, by rw [ha]; exact List.mem_append_left _ hx, by simpa using hkx⟩
        · exact insertAll_keys key cols nn rs acc n acc' n' h q hq
      · rw [if_neg hc] at h
        intro q hq
        rcases List.mem_cons.mp hq with hq | hq
        · subst hq
          obtain ⟨added, ha, _⟩ :=
            insertAll_shape key cols nn rs (acc ++ [q]) (n + 1) acc' n' h
          exact ⟨q, by rw [ha]; exact List.mem_append_left _ (by simp), rfl⟩
        · exact insertAll_keys key cols nn rs (acc ++ [r]) (n + 1) acc' n' h q hq

theorem insertAll_no_rowError (key : List Value → List Value) (cols : List String)
    (nn : List Nat) :
    ∀ (rows acc : List (List Value)) (n : Nat) (acc' : List (List Value)) (n' : Nat),
    insertAll key cols nn acc n rows = .ok (acc', n') →
    ∀ r ∈ rows, rowError cols nn r = none
  | [], acc, n, acc', n', h => by simp
  | r :: rs, acc, n, acc', n', h => by
    simp only [insertAll] at h
    match hre : rowError cols nn r with
    | some e => rw [hre] at h; exact absurd h (by simp)
    | none =>
      rw [hre] at h
      intro q hq
      rcases List.mem_cons.mp hq with hq | hq
      · subst hq; exact hre
      · by_cases hc : acc.any (fun row => key row = key r)
        · rw [if_pos hc] at h
          exact insertAll_no_rowError key cols nn rs acc n acc' n' h q hq
        · rw [if_neg hc] at h
          exact insertAll_no_rowError key cols nn rs (acc ++ [r]) (n + 1) acc' n' h q hq

theorem insertAll_idempotent (key : List Value → List Value) (cols : List String)
    (nn : List Nat) :
    ∀ (rows acc : List (List Value)) (n : Nat),
    (∀ r ∈ rows, rowError cols nn r = none) →
    (∀ r ∈ rows, ∃ x ∈ acc, key x = key r) →
    insertAll key cols nn acc n rows = .ok (acc, n)
  | [], acc, n, _, _ => rfl
  | r :: rs, acc, n, hre, hk => by
    simp only [insertAll]
    rw [hre r (by simp)]
    have hc : acc.any (fun row => key row = key r) = true := by
      obtain ⟨x, hx, hkx⟩ := hk r (by simp)
      exact List.any_eq_true.mpr ⟨x, hx, by simpa using hkx⟩
    rw [if_pos hc]
    exact insertAll_idempotent key cols nn rs acc n
      (fun q hq => hre q (by simp [hq])) (fun q hq => hk q (by simp [hq]))

/-! ## Properties of `migrate_table` and the orchestration loop -/

/-- The destination state and the returned row count of `migrate_table`
do not depend on the statistics accumulator passed in. -/
theorem migrate_table_stats_congr (sdb : SQLiteDB) (schema : PGSchema)
    (st : DestState) (t : String) (s₁ s₂ : MigrationStats) :
    (migrate_table sdb schema st t s₁).1 = (migrate_table sdb schema st t s₂).1 ∧
    (migrate_table sdb schema st t s₁).2.2 = (migrate_table sdb schema st t s₂).2.2 := by
  have hconv : ∀ s : MigrationStats,
      (convertRows t (get_table_columns sdb t) (fetch_rows sdb t) s).1 =
        rowSuccesses t (get_table_columns sdb t) (fetch_rows sdb t) :=
    fun s => (convertRowsAux_spec t (get_table_columns sdb t)
      (fetch_rows sdb t) 1 s).1
  simp only [migrate_table, convertRows] at hconv ⊢
  by_cases h1 : get_table_columns sdb t = []
  · simp [h1]
  · rw [if_neg h1, if_neg h1]
    by_cases h2 : fetch_rows sdb t = []
    · simp [h2]
    · rw [if_neg h2, if_neg h2]
      rw [show (convertRowsAux t (get_table_columns sdb t) 1 (fetch_rows sdb t) s₁).1
          = (convertRowsAux t (get_table_columns sdb t) 1 (fetch_rows sdb t) s₂).1 from
        (hconv s₁).trans (hconv s₂).symm]
      by_cases h3 :
        (convertRowsAux t (get_table_columns sdb t) 1 (fetch_rows sdb t) s₂).1 = []
      · simp [h3]
      · rw [if_neg h3, if_neg h3]
        match hex : executemany schema t (get_table_columns sdb t) (st.data t)
          (convertRowsAux t (get_table_columns sdb t) 1 (fetch_rows sdb t) s₂).1 with
        | .ok res => simp [hex]
        | .error e => simp [hex]

/-- `migrate_table` never changes the sequences or the FK toggle, and
never touches the tables-migrated counter. -/
theorem migrate_table_frame (sdb : SQLiteDB) (schema : PGSchema)
    (st : DestState) (t : String) (s : MigrationStats) :
    (migrate_table sdb schema st t s).1.seqs = st.seqs ∧
    (migrate_table sdb schema st t s).1.fkEnforced = st.fkEnforced ∧
    (migrate_table sdb schema st t s).2.1.tables_migrated = s.tables_migrated := by
  have hconv := convertRowsAux_spec t (get_table_columns sdb t) (fetch_rows sdb t) 1 s
  simp only [migrate_table, convertRows]
  by_cases h1 : get_table_columns sdb t = []
  · simp [h1]
  · rw [if_neg h1]
    by_cases h2 : fetch_rows sdb t = []
    · simp [h2]
    · rw [if_neg h2]
      by_cases h3 :
        (convertRowsAux t (get_table_columns sdb t) 1 (fetch_rows sdb t) s).1 = []
      · simp [h3, hconv.2.2.1]
      · rw [if_neg h3]
        match hex : executemany schema t (get_table_columns sdb t) (st.data t)
          (convertRowsAux t (get_table_columns sdb t) 1 (fetch_rows sdb t) s).1 with
        | .ok res => simp [hex, hconv.2.2.1]
        | .error e => simp [hex, add_error, hconv.2.2.1]

theorem migrateTables_events (sdb : SQLiteDB) (schema : PGSchema) :
    ∀ (order : List String) (st : DestState) (stats : MigrationStats),
    (migrateTables sdb schema order st stats).2.2 = order.map Event.tableDone
  | [], _, _ => rfl
  | t :: ts, st, stats => by
    simp only [migrateTables, List.map_cons]
    rw [migrateTables_events sdb schema ts _ _]

theorem migrateTables_tables_migrated (sdb : SQLiteDB) (schema : PGSchema) :
    ∀ (order : List String) (st : DestState) (stats : MigrationStats),
    (migrateTables sdb schema order st stats).2.1.tables_migrated =
      stats.tables_migrated + order.length
  | [], _, _ => by simp [migrateTables]
  | t :: ts, st, stats => by
    simp only [migrateTables]
    rw [migrateTables_tables_migrated sdb schema ts _ _]
    have h := (migrate_table_frame sdb schema st t stats).2.2
    simp only [h, List.length_cons]
    omega

theorem migrateTables_fk (sdb : SQLiteDB) (schema : PGSchema) :
    ∀ (order : List String) (st : DestState) (stats : MigrationStats),
    (migrateTables sdb schema order st stats).1.fkEnforced = st.fkEnforced
  | [], _, _ => rfl
  | t :: ts, st, stats => by
    simp only [migrateTables]
    rw [migrateTables_fk sdb schema ts _ _]
    exact (migrate_table_frame sdb schema st t stats).2.1

theorem migrateTables_stats_congr (sdb : SQLiteDB) (schema : PGSchema) :
    ∀ (order : List String) (st : DestState) (s₁ s₂ : MigrationStats),
    (migrateTables sdb schema order st s₁).1 = (migrateTables sdb schema order st s₂).1
  | [], _, _, _ => rfl
  | t :: ts, st, s₁, s₂ => by
    simp only [migrateTables]
    rw [(migrate_table_stats_congr sdb schema st t s₁ s₂).1]
    exact migrateTables_stats_congr sdb schema ts _ _ _

theorem migrateTables_append (sdb : SQLiteDB) (schema : PGSchema) :
    ∀ (l1 l2 : List String) (st : DestState) (stats : MigrationStats),
    (migrateTables sdb schema (l1 ++ l2) st stats).1 =
      (migrateTables sdb schema l2 (migrateTables sdb schema l1 st stats).1
        (migrateTables sdb schema l1 st stats).2.1).1 ∧
    (migrateTables sdb schema (l1 ++ l2) st stats).2.1 =
      (migrateTables sdb schema l2 (migrateTables sdb schema l1 st stats).1
        (migrateTables sdb schema l1 st stats).2.1).2.1
  | [], l2, st, stats => by simp [migrateTables]
  | t :: ts, l2, st, stats => by
    simp only [List.cons_append, migrateTables]
    exact migrateTables_append sdb schema ts l2 _ _

theorem reset_one_frame (schema : PGSchema) (st : DestState) (t c : String) :
    (reset_one schema st t c).1.data = st.data ∧
    (reset_one schema st t c).1.fkEnforced = st.fkEnforced := by
  rcases h1 : schema.columns t with _ | destCols
  · simp [reset_one, h1]
  · rcases h2 : destCols.findIdx? (fun d => d = c) with _ | idx
    · simp [reset_one, h1, h2]
    · rcases h3 : maxCol (st.data t) idx with _ | v
      · simp [reset_one, h1, h2, h3]
      · by_cases h4 : v = 0
        · simp [reset_one, h1, h2, h3, h4]
        · simp [reset_one, h1, h2, h3, h4]

theorem reset_one_outcome_congr (schema : PGSchema) (st st' : DestState)
    (t c : String) (h : st.data = st'.data) :
    (reset_one schema st t c).2 = (reset_one schema st' t c).2 := by
  rcases h1 : schema.columns t with _ | destCols
  · simp [reset_one, h1]
  · rcases h2 : destCols.findIdx? (fun d => d = c) with _ | idx
    · simp [reset_one, h1, h2]
    · rcases h3 : maxCol (st.data t) idx with _ | v
      · simp [reset_one, h1, h2, h3, ← h]
      · by_cases h4 : v = 0
        · simp [reset_one, h1, h2, h3, h4, ← h]
        · simp [reset_one, h1, h2, h3, h4, ← h]

theorem reset_sequences_spec (schema : PGSchema) :
    ∀ (serials : List (String × String)) (st : DestState),
    (reset_sequences schema serials st).1.data = st.data ∧
    (reset_sequences schema serials st).1.fkEnforced = st.fkEnforced ∧
    (reset_sequences schema serials st).2 =
      serials.map (fun p => (reset_one schema st p.1 p.2).2)
  | [], st => by simp [reset_sequences]
  | (t, c) :: rest, st => by
    have hf := reset_one_frame schema st t c
    have ih := reset_sequences_spec schema rest (reset_one schema st t c).1
    simp only [reset_sequences, List.map_cons]
    refine ⟨by rw [ih.1, hf.1], by rw [ih.2.1, hf.2], ?_⟩
    rw [ih.2.2]
    rw [show (fun p : String × String =>
        (reset_one schema (reset_one schema st t c).1 p.1 p.2).2) =
        (fun p : String × String => (reset_one schema st p.1 p.2).2) from
      funext fun p => reset_one_outcome_congr schema _ st p.1 p.2 hf.1]

theorem executemany_ok_elim (schema : PGSchema) (t : String) (cols : List String)
    (existing rows newRows : List (List Value)) (cnt : Nat)
    (h : executemany schema t cols existing rows = .ok (newRows, cnt)) :
    ∃ destCols, schema.columns t = some destCols ∧
      cols.all destCols.contains = true ∧
      insertAll (schema.keyOf t) cols (schema.notNull t) existing 0 rows =
        .ok (newRows, cnt) := by
  unfold executemany at h
  split at h
  · exact absurd h (by simp)
  · next destCols hc =>
    split at h
    · next hall => exact ⟨destCols, hc, hall, h⟩
    · exact absurd h (by simp)

/-! ## The claims -/

/-- Claim C7: for every boolean-rule column, conversion maps null to null
and any non-null value to its Python truthiness (zero / empty to false,
anything else to true); in particular the inputs `0`, `1`, `null`, `""`,
`"x"` convert to `false`, `true`, `null`, `false`, `true` respectively. -/
theorem c7_boolean_rule (t c : String) (h : colRule BOOLEAN_COLUMNS t c = true) :
    convert_value t c Value.null = .ok Value.null ∧
    (∀ n : Int, convert_value t c (Value.int n) =
      .ok (Value.bool (decide (n ≠ 0)))) ∧
    (∀ s : String, convert_value t c (Value.text s) =
      .ok (Value.bool (decide (s ≠ "")))) ∧
    (∀ b : List Nat, convert_value t c (Value.blob b) =
      .ok (Value.bool (decide (b ≠ [])))) ∧
    (∀ b : Bool, convert_value t c (Value.bool b) = .ok (Value.bool b)) ∧
    convert_value t c (Value.int 0) = .ok (Value.bool false) ∧
    convert_value t c (Value.int 1) = .ok (Value.bool true) ∧
    convert_value t c (Value.text "") = .ok (Value.bool false) ∧
    convert_value t c (Value.text "x") = .ok (Value.bool true) := by
  refine ⟨by simp [convert_value], ?_, ?_, ?_, ?_, ?_, ?_, ?_, ?_⟩ <;>
    first
      | (intro x; simp [convert_value, h, convert_boolean, truthy])
      | simp [convert_value, h, convert_boolean, truthy]

/-- Claim C7 witness: the boolean rule applied to the `users.is_active`
column on the five inputs named by the claim. -/
theorem c7_witness :
    colRule BOOLEAN_COLUMNS "users" "is_active" = true ∧
    convert_value "users" "is_active" (Value.int 0) = .ok (Value.bool false) ∧
    convert_value "users" "is_active" (Value.int 1) = .ok (Value.bool true) ∧
    convert_value "users" "is_active" Value.null = .ok Value.null ∧
    convert_value "users" "is_active" (Value.text "") = .ok (Value.bool false) ∧
    convert_value "users" "is_active" (Value.text "x") = .ok (Value.bool true) :=
  have h : colRule BOOLEAN_COLUMNS "users" "is_active" = true := by decide
  have hc := c7_boolean_rule "users" "is_active" h
  ⟨h, hc.2.2.2.2.2.1, hc.2.2.2.2.2.2.1, hc.1, hc.2.2.2.2.2.2.2.1,
    hc.2.2.2.2.2.2.2.2⟩

/-- The statistics mutations the script performs: `add_error`, the
`total_rows` accumulation and the `tables_migrated` increment. -/
inductive StatsOp where
  | addError (t : String) (rowNum : Nat) (msg : String)
  | addRows (k : Nat)
  | incTables

def applyStatsOp (st : MigrationStats) : StatsOp → MigrationStats
  | .addError t n e => add_error st t n e
  | .addRows k => { st with total_rows := st.total_rows + k }
  | .incTables => { st with tables_migrated := st.tables_migrated + 1 }

/-- The C9 invariant: as many error lines as skipped rows in total. -/
def statsInvariant (st : MigrationStats) : Prop :=
  st.errors.length = skippedTotal st

/-- Claim C9: `MigrationStats` maintains, across every sequence of
operations, the invariant that the error-list length equals the total of
the per-table skipped-row counts: `add_error` appends exactly one error
line and adds exactly one to one table's skipped count, and the other two
mutations change neither. -/
theorem c9_stats_error_skipped_invariant :
    statsInvariant initStats ∧
    (∀ st t n e, (add_error st t n e).errors = st.errors ++ [errStr t n e] ∧
      skippedTotal (add_error st t n e) = skippedTotal st + 1) ∧
    (∀ st k, (applyStatsOp st (StatsOp.addRows k)).errors = st.errors ∧
      (applyStatsOp st (StatsOp.addRows k)).skipped_rows = st.skipped_rows) ∧
    (∀ st, (applyStatsOp st StatsOp.incTables).errors = st.errors ∧
      (applyStatsOp st StatsOp.incTables).skipped_rows = st.skipped_rows) ∧
    (∀ st op, statsInvariant st → statsInvariant (applyStatsOp st op)) ∧
    (∀ ops : List StatsOp, statsInvariant (ops.foldl applyStatsOp initStats)) := by
  have hpres : ∀ st op, statsInvariant st → statsInvariant (applyStatsOp st op) := by
    intro st op h
    cases op with
    | addError t n e =>
      simp only [applyStatsOp, statsInvariant, add_error, skippedTotal] at h ⊢
      simp [bumpSkipped_sum, h]
    | addRows k => simpa [applyStatsOp, statsInvariant, skippedTotal] using h
    | incTables => simpa [applyStatsOp, statsInvariant, skippedTotal] using h
  have hfold : ∀ (ops : List StatsOp) (st : MigrationStats),
      statsInvariant st → statsInvariant (ops.foldl applyStatsOp st) := by
    intro ops
    induction ops with
    | nil => exact fun st h => h
    | cons op rest ih => exact fun st h => ih _ (hpres st op h)
  refine ⟨rfl, ?_, fun st k => ⟨rfl, rfl⟩, fun st => ⟨rfl, rfl⟩, hpres,
    fun ops => hfold ops initStats rfl⟩
  intro st t n e
  exact ⟨by simp [add_error], by simp [add_error, skippedTotal, bumpSkipped_sum]⟩

/-- Claim C9 witness: the invariant holds of a fresh accumulator and is
preserved by a concrete `add_error`. -/
theorem c9_witness :
    statsInvariant initStats ∧
    statsInvariant (applyStatsOp initStats (StatsOp.addError "users" 1 "boom")) :=
  ⟨rfl, c9_stats_error_skipped_invariant.2.2.2.2.1 initStats
    (StatsOp.addError "users" 1 "boom") rfl⟩

/-- Claim C10: the tables-migrated counter is incremented exactly once per
planned table — missing, empty and failed tables included — so at the end
of the migration phase it equals the length of the configured migration
order. -/
theorem c10_tables_migrated_counts_plan :
    (∀ (sdb : SQLiteDB) (schema : PGSchema) (order : List String)
      (st : DestState) (stats : MigrationStats),
      (migrateTables sdb schema order st stats).2.1.tables_migrated =
        stats.tables_migrated + order.length) ∧
    (∀ (sdb : SQLiteDB) (schema : PGSchema) (d0 : DestState),
      (mainRun sdb schema d0).stats.tables_migrated = MIGRATION_ORDER.length) := by
  refine ⟨fun sdb schema => migrateTables_tables_migrated sdb schema, ?_⟩
  intro sdb schema d0
  show (migrateTables sdb schema MIGRATION_ORDER
    { d0 with fkEnforced := false } initStats).2.1.tables_migrated =
    MIGRATION_ORDER.length
  rw [migrateTables_tables_migrated]
  rfl

/-- Claim C8: in every run that reaches the migration phase,
referential-integrity enforcement is suspended before the first table is
written (the whole migration fold runs with the toggle off), restored
before the terminal event, and the final state has it back on, whatever
the sources, the schema and however many errors occur. -/
theorem c8_fk_suspension_scoped (sdb : SQLiteDB) (schema : PGSchema)
    (d0 : DestState) :
    (mainRun sdb schema d0).events =
      Event.suspendFK :: (MIGRATION_ORDER.map Event.tableDone ++
        [Event.restoreFK, Event.finished (mainRun sdb schema d0).exitCode]) ∧
    (mainRun sdb schema d0).dest.fkEnforced = true ∧
    (migrateTables sdb schema MIGRATION_ORDER { d0 with fkEnforced := false }
      initStats).1.fkEnforced = false := by
  refine ⟨?_, rfl, ?_⟩
  · show Event.suspendFK :: ((migrateTables sdb schema MIGRATION_ORDER
      { d0 with fkEnforced := false } initStats).2.2 ++
        [Event.restoreFK, Event.finished (mainRun sdb schema d0).exitCode]) = _
    rw [migrateTables_events]
  · rw [migrateTables_fk]

/-- Claim C3 (amended): after loading, for a table with a
destination-generated key whose destination column exists, sequence repair
sets the generator to the maximum key so that the next generated value is
`max + 1`, strictly greater than the maximum — provided that maximum is
non-null and non-zero; repair is skipped without recording any error both
when the maximum is null (the table is empty) and when it is zero (the
Python truthiness test `if max_val:` also skips a zero maximum). -/
theorem c3_sequence_repair_advances_generator (schema : PGSchema)
    (st : DestState) (t c : String) (destCols : List String) (idx : Nat)
    (hcols : schema.columns t = some destCols)
    (hidx : destCols.findIdx? (fun d => d = c) = some idx) :
    (∀ v : Int, maxCol (st.data t) idx = some v → v ≠ 0 →
      (reset_one schema st t c).2 = SeqOutcome.reset (seqName t c) v ∧
      (reset_one schema st t c).1.seqs (seqName t c) = v ∧
      nextval (reset_one schema st t c).1 (seqName t c) = v + 1 ∧
      v < v + 1) ∧
    (maxCol (st.data t) idx = none →
      reset_one schema st t c = (st, SeqOutcome.skipped t)) ∧
    (maxCol (st.data t) idx = some 0 →
      reset_one schema st t c = (st, SeqOutcome.skipped t)) := by
  refine ⟨?_, ?_, ?_⟩
  · intro v hv hv0
    refine ⟨by simp [reset_one, hcols, hidx, hv, hv0], ?_, ?_, by omega⟩
    · simp [reset_one, hcols, hidx, hv, hv0]
    · simp [reset_one, nextval, hcols, hidx, hv, hv0]
  · intro hv; simp [reset_one, hcols, hidx, hv]
  · intro hv; simp [reset_one, hcols, hidx, hv]

def c3schema : PGSchema :=
  { columns := fun t => if t = "memory_tags" then some ["id"] else none,
    keyOf := fun _ r => r, notNull := fun _ => [] }

def c3state : DestState :=
  { data := fun t => if t = "memory_tags" then [[Value.int 0]] else [],
    seqs := fun _ => 0, fkEnforced := true }

/-- Claim C3 counterexample: the claim's "when and only when the table is
empty" fails — a non-empty `memory_tags` table whose single key is `0` is
also skipped, because the script tests the maximum with Python truthiness
(`if max_val:`) rather than with `is not None`; the sequence is left
untouched. -/
theorem c3_counterexample :
    c3state.data "memory_tags" = [[Value.int 0]] ∧
    (reset_one c3schema c3state "memory_tags" "id").2 =
      SeqOutcome.skipped "memory_tags" ∧
    (reset_one c3schema c3state "memory_tags" "id").1.seqs
      (seqName "memory_tags" "id") = 0 := by
  refine ⟨rfl, ?_, ?_⟩ <;> rfl

def c3wstate : DestState :=
  { data := fun t => if t = "memory_tags" then
      [[Value.int 3], [Value.int 7], [Value.int 12]] else [],
    seqs := fun _ => 0, fkEnforced := true }

def c3estate : DestState :=
  { data := fun _ => [], seqs := fun _ => 0, fkEnforced := true }

/-- Claim C3 witness: with migrated keys 3, 7, 12 the generator is set to
12 and the next value is 13; on an empty table repair is a no-op. -/
theorem c3_witness :
    c3schema.columns "memory_tags" = some ["id"] ∧
    maxCol (c3wstate.data "memory_tags") 0 = some 12 ∧
    (reset_one c3schema c3wstate "memory_tags" "id").2 =
      SeqOutcome.reset (seqName "memory_tags" "id") 12 ∧
    nextval (reset_one c3schema c3wstate "memory_tags" "id").1
      (seqName "memory_tags" "id") = 12 + 1 ∧
    reset_one c3schema c3estate "memory_tags" "id" =
      (c3estate, SeqOutcome.skipped "memory_tags") :=
  have h1 : c3schema.columns "memory_tags" = some ["id"] := rfl
  have h2 : (["id"].findIdx? (fun d => d = "id")) = some 0 := rfl
  have hw := c3_sequence_repair_advances_generator c3schema c3wstate
    "memory_tags" "id" ["id"] 0 h1 h2
  have he := c3_sequence_repair_advances_generator c3schema c3estate
    "memory_tags" "id" ["id"] 0 h1 h2
  have hv : maxCol (c3wstate.data "memory_tags") 0 = some 12 := by decide
  ⟨h1, hv, (hw.1 12 hv (by decide)).1, (hw.1 12 hv (by decide)).2.2.1,
    he.2.1 (by decide)⟩

/-- Claim C2 (amended): every sequence-repair failure is non-fatal — the
loop produces one outcome for every configured SERIAL table, each computed
from the loaded data independently of earlier failures — but a failure is
only reported to the console: the run's aggregated statistics are exactly
those of the migration phase, so repair failures are absent from the error
list and the process exit status reflects migration errors only. -/
theorem c2_sequence_repair_nonfatal_not_accumulated :
    (∀ (schema : PGSchema) (serials : List (String × String)) (st : DestState),
      (reset_sequences schema serials st).2 =
        serials.map (fun p => (reset_one schema st p.1 p.2).2) ∧
      (reset_sequences schema serials st).2.length = serials.length) ∧
    (∀ (sdb : SQLiteDB) (schema : PGSchema) (d0 : DestState),
      (mainRun sdb schema d0).stats =
        (migrateTables sdb schema MIGRATION_ORDER
          { d0 with fkEnforced := false } initStats).2.1 ∧
      (mainRun sdb schema d0).outcomes.length = SERIAL_COLUMNS.length ∧
      ((mainRun sdb schema d0).exitCode = 0 ↔
        (mainRun sdb schema d0).stats.errors = [])) := by
  have houts : ∀ (schema : PGSchema) (serials : List (String × String))
      (st : DestState),
      (reset_sequences schema serials st).2 =
        serials.map (fun p => (reset_one schema st p.1 p.2).2) :=
    fun schema serials st => (reset_sequences_spec schema serials st).2.2
  refine ⟨fun schema serials st => ⟨houts schema serials st, ?_⟩, ?_⟩
  · rw [houts schema serials st, List.length_map]
  · intro sdb schema d0
    refine ⟨rfl, ?_, ?_⟩
    · show (reset_sequences schema SERIAL_COLUMNS _).2.length = _
      rw [houts, List.length_map]
    · show (if (migrateTables sdb schema MIGRATION_ORDER
          { d0 with fkEnforced := false } initStats).2.1.errors = []
          then 0 else 1) = 0 ↔
        (migrateTables sdb schema MIGRATION_ORDER
          { d0 with fkEnforced := false } initStats).2.1.errors = []
      by_cases he : (migrateTables sdb schema MIGRATION_ORDER
          { d0 with fkEnforced := false } initStats).2.1.errors = []
      · simp [he]
      · simp [he]

def c2src : SQLiteDB :=
  { tables := [("users", ["id", "email"], [[Value.int 1, Value.text "ann"]])] }

def c2schema : PGSchema :=
  { columns := fun t => if t = "users" then some ["id", "email"] else none,
    keyOf := fun _ r => r.take 1, notNull := fun _ => [] }

def c2dest : DestState :=
  { data := fun _ => [], seqs := fun _ => 0, fkEnforced := true }

def SeqOutcome.isFailure : SeqOutcome → Bool
  | .failed _ _ => true
  | _ => false

/-- Claim C2 counterexample: a run in which every sequence repair fails
(the destination lacks all nine SERIAL tables) yet the aggregated error
list stays empty and the process exits with status 0 — repair failures
are not accumulated and are not reflected in the exit status, refuting
the claim as stated. -/
theorem c2_counterexample :
    ((mainRun c2src c2schema c2dest).outcomes.any SeqOutcome.isFailure) = true ∧
    (mainRun c2src c2schema c2dest).stats.errors = [] ∧
    (mainRun c2src c2schema c2dest).exitCode = 0 := by
  refine ⟨?_, ?_, ?_⟩ <;> rfl

/-- Claim C5: in a table where exactly one row's conversion throws, the
batch receives exactly `N - 1` converted rows and exactly one row-level
error is appended, citing the table and that row's 1-based index;
conversion continues past the bad row. -/
theorem c5_row_isolation (t : String) (cols : List String)
    (pre post : List (List Value)) (bad : List Value) (e : String)
    (st : MigrationStats)
    (hpre : ∀ r ∈ pre, ∃ cr, convert_row t cols 0 r = .ok cr)
    (hpost : ∀ r ∈ post, ∃ cr, convert_row t cols 0 r = .ok cr)
    (hbad : convert_row t cols 0 bad = .error e) :
    (convertRows t cols (pre ++ bad :: post) st).1.length =
      (pre ++ bad :: post).length - 1 ∧
    (convertRows t cols (pre ++ bad :: post) st).2.errors =
      st.errors ++ [errStr t (pre.length + 1) e] := by
  have hspec := convertRowsAux_spec t cols (pre ++ bad :: post) 1 st
  constructor
  · rw [show (convertRows t cols (pre ++ bad :: post) st).1 =
      rowSuccesses t cols (pre ++ bad :: post) from hspec.1]
    rw [show rowSuccesses t cols (pre ++ bad :: post) =
      rowSuccesses t cols pre ++ rowSuccesses t cols (bad :: post) from by
        simp [rowSuccesses, List.filterMap_append]]
    rw [show rowSuccesses t cols (bad :: post) = rowSuccesses t cols post from by
      simp [rowSuccesses, List.filterMap_cons, okRow, hbad]]
    rw [List.length_append, rowSuccesses_all_ok t cols pre hpre,
      rowSuccesses_all_ok t cols post hpost]
    simp only [List.length_append, List.length_cons]
    omega
  · rw [show (convertRows t cols (pre ++ bad :: post) st).2.errors =
      st.errors ++ rowFailures t cols 1 (pre ++ bad :: post) from hspec.2.1]
    rw [rowFailures_append t cols pre (bad :: post) 1 hpre]
    rw [show rowFailures t cols (1 + pre.length) (bad :: post) =
      errStr t (1 + pre.length) e ::
        rowFailures t cols (1 + pre.length + 1) post from by
          simp [rowFailures, hbad]]
    rw [rowFailures_all_ok t cols post _ hpost]
    rw [Nat.add_comm 1 pre.length]

def c5rows : List (List Value) :=
  [[Value.int 1, Value.text "\x7b\x7d"], [Value.int 2, Value.blob [1]],
   [Value.int 3, Value.int 5]]

/-- Claim C5 witness: of three `audit_logs` rows the second one fails
conversion (a bytes value in the JSON `details` column is not
serializable), leaving two submitted rows and the single error line
`  audit_logs row 2: ...`. -/
theorem c5_witness :
    convert_row "audit_logs" ["id", "details"] 0 [Value.int 2, Value.blob [1]] =
      .error "Object of type bytes is not JSON serializable" ∧
    (convertRows "audit_logs" ["id", "details"] c5rows initStats).1.length = 2 ∧
    (convertRows "audit_logs" ["id", "details"] c5rows initStats).2.errors =
      [errStr "audit_logs" 2 "Object of type bytes is not JSON serializable"] := by
  have h := c5_row_isolation "audit_logs" ["id", "details"]
    [[Value.int 1, Value.text "\x7b\x7d"]] [[Value.int 3, Value.int 5]]
    [Value.int 2, Value.blob [1]]
    "Object of type bytes is not JSON serializable" initStats
    (by intro r hr
        simp only [List.mem_singleton] at hr
        subst hr
        exact ⟨[Value.int 1, Value.text "\x7b\x7d"], rfl⟩)
    (by intro r hr
        simp only [List.mem_singleton] at hr
        subst hr
        exact ⟨[Value.int 3, Value.text "5"], rfl⟩)
    rfl
  refine ⟨rfl, ?_, ?_⟩
  · have := h.1
    simpa using this
  · have := h.2
    simpa using this

/-- Claim C6: for every structured-data-rule column and non-null value — a
textual value that parses converts to the canonical re-serialization,
which is semantically equal to the original (it parses back to the very
same data); a textual value that fails to parse converts to null with no
row-level error recorded; a non-textual value is serialized directly
without a parse step (integers and booleans to their JSON rendering).
The side condition that the column is not also a boolean-rule column
reflects the dispatch order of `convert_value` and holds of every column
in `JSON_COLUMNS`. -/
theorem c6_structured_data_rule (t c : String)
    (hj : colRule JSON_COLUMNS t c = true)
    (hb : colRule BOOLEAN_COLUMNS t c = false) :
    (∀ (s : String) (j : Json), loads s = some j →
      convert_value t c (Value.text s) = .ok (Value.text (dumps j)) ∧
      loads (dumps j) = some j) ∧
    (∀ s : String, loads s = none →
      convert_value t c (Value.text s) = .ok Value.null) ∧
    (∀ (s : String) (st : MigrationStats), loads s = none →
      convertRows t [c] [[Value.text s]] st = ([[Value.null]], st)) ∧
    (∀ n : Int, convert_value t c (Value.int n) =
      .ok (Value.text (dumps (Json.num n)))) ∧
    (∀ b : Bool, convert_value t c (Value.bool b) =
      .ok (Value.text (dumps (Json.bool b)))) := by
  have hnull : ∀ s : String, loads s = none →
      convert_value t c (Value.text s) = .ok Value.null := by
    intro s hs
    simp [convert_value, hj, hb, convert_json, hs]
  refine ⟨?_, hnull, ?_, ?_, ?_⟩
  · intro s j hs
    exact ⟨by simp [convert_value, hj, hb, convert_json, hs], loads_dumps j⟩
  · intro s st hs
    simp [convertRows, convertRowsAux, convert_row, hnull s hs]
  · intro n
    simp [convert_value, hj, hb, convert_json, pyJsonDumpValue]
  · intro b
    simp [convert_value, hj, hb, convert_json, pyJsonDumpValue]

/-- Claim C6 witness: the JSON rule on `api_usage.models` — the text
`"[1, 2]"` parses, re-serializes canonically and round-trips; the
malformed text `"nope"` converts to null. -/
theorem c6_witness :
    colRule JSON_COLUMNS "api_usage" "models" = true ∧
    loads "[1, 2]" = some (Json.arr [Json.num 1, Json.num 2]) ∧
    convert_value "api_usage" "models" (Value.text "[1, 2]") =
      .ok (Value.text (dumps (Json.arr [Json.num 1, Json.num 2]))) ∧
    loads (dumps (Json.arr [Json.num 1, Json.num 2])) =
      some (Json.arr [Json.num 1, Json.num 2]) ∧
    loads "nope" = none ∧
    convert_value "api_usage" "models" (Value.text "nope") = .ok Value.null := by
  have hj : colRule JSON_COLUMNS "api_usage" "models" = true := by decide
  have hb : colRule BOOLEAN_COLUMNS "api_usage" "models" = false := by decide
  have hload : loads "[1, 2]" = some (Json.arr [Json.num 1, Json.num 2]) := by
    decide
  have hbadload : loads "nope" = none := by decide
  have h := c6_structured_data_rule "api_usage" "models" hj hb
  have h1 := h.1 "[1, 2]" (Json.arr [Json.num 1, Json.num 2]) hload
  exact ⟨hj, hload, h1.1, h1.2, hbadload, h.2.1 "nope" hbadload⟩

/-- Evaluation of `migrate_table` when the batch insert succeeds. -/
theorem migrate_table_ok (sdb : SQLiteDB) (schema : PGSchema) (st : DestState)
    (t : String) (stats : MigrationStats) (newRows : List (List Value)) (cnt : Nat)
    (hcne : get_table_columns sdb t ≠ [])
    (hrne : fetch_rows sdb t ≠ [])
    (hconv : rowSuccesses t (get_table_columns sdb t) (fetch_rows sdb t) ≠ [])
    (hexec : executemany schema t (get_table_columns sdb t) (st.data t)
      (rowSuccesses t (get_table_columns sdb t) (fetch_rows sdb t)) =
        .ok (newRows, cnt)) :
    migrate_table sdb schema st t stats =
      ({ st with data := fun u => if u = t then newRows else st.data u },
       { (convertRows t (get_table_columns sdb t) (fetch_rows sdb t) stats).2 with
          total_rows := (convertRows t (get_table_columns sdb t)
            (fetch_rows sdb t) stats).2.total_rows + cnt },
       cnt) := by
  have hc1 : (convertRows t (get_table_columns sdb t) (fetch_rows sdb t) stats).1 =
      rowSuccesses t (get_table_columns sdb t) (fetch_rows sdb t) :=
    (convertRowsAux_spec t (get_table_columns sdb t) (fetch_rows sdb t) 1 stats).1
  simp only [migrate_table]
  rw [if_neg hcne, if_neg hrne]
  simp only [convertRows] at hc1 ⊢
  rw [hc1, if_neg hconv, hexec]

/-- Evaluation of `migrate_table` when the batch insert fails: the
destination is rolled back unchanged, one table-level error (row 0) is
recorded, zero rows are reported. -/
theorem migrate_table_err (sdb : SQLiteDB) (schema : PGSchema) (st : DestState)
    (t : String) (stats : MigrationStats) (e : String)
    (hcne : get_table_columns sdb t ≠ [])
    (hrne : fetch_rows sdb t ≠ [])
    (hconv : rowSuccesses t (get_table_columns sdb t) (fetch_rows sdb t) ≠ [])
    (hexec : executemany schema t (get_table_columns sdb t) (st.data t)
      (rowSuccesses t (get_table_columns sdb t) (fetch_rows sdb t)) = .error e) :
    migrate_table sdb schema st t stats =
      (st, add_error (convertRows t (get_table_columns sdb t)
        (fetch_rows sdb t) stats).2 t 0 ("Batch insert failed: " ++ e), 0) := by
  have hc1 : (convertRows t (get_table_columns sdb t) (fetch_rows sdb t) stats).1 =
      rowSuccesses t (get_table_columns sdb t) (fetch_rows sdb t) :=
    (convertRowsAux_spec t (get_table_columns sdb t) (fetch_rows sdb t) 1 stats).1
  simp only [migrate_table]
  rw [if_neg hcne, if_neg hrne]
  simp only [convertRows] at hc1 ⊢
  rw [hc1, if_neg hconv, hexec]

/-- Claim C1: when a table's non-empty converted row set is batch-written
successfully, `migrate_table` returns — and adds to the run's total-rows
statistic — the number of rows the destination actually persisted (the
destination table grows by exactly that count, which never exceeds the
number submitted); and a second run of the same table over the unchanged
source writes zero new rows and leaves the destination unchanged. -/
theorem c1_batch_writer_reports_persisted_rows (sdb : SQLiteDB)
    (schema : PGSchema) (st : DestState) (stats : MigrationStats) (t : String)
    (newRows : List (List Value)) (cnt : Nat)
    (hcne : get_table_columns sdb t ≠ [])
    (hrne : fetch_rows sdb t ≠ [])
    (hconv : rowSuccesses t (get_table_columns sdb t) (fetch_rows sdb t) ≠ [])
    (hexec : executemany schema t (get_table_columns sdb t) (st.data t)
      (rowSuccesses t (get_table_columns sdb t) (fetch_rows sdb t)) =
        .ok (newRows, cnt)) :
    (migrate_table sdb schema st t stats).2.2 = cnt ∧
    (migrate_table sdb schema st t stats).2.1.total_rows =
      stats.total_rows + cnt ∧
    (migrate_table sdb schema st t stats).1.data t = newRows ∧
    newRows.length = (st.data t).length + cnt ∧
    cnt ≤ (rowSuccesses t (get_table_columns sdb t) (fetch_rows sdb t)).length ∧
    (∀ stats' : MigrationStats,
      (migrate_table sdb schema (migrate_table sdb schema st t stats).1 t
        stats').2.2 = 0 ∧
      (migrate_table sdb schema (migrate_table sdb schema st t stats).1 t
        stats').1 = (migrate_table sdb schema st t stats).1) := by
  have hmt := migrate_table_ok sdb schema st t stats newRows cnt hcne hrne hconv hexec
  obtain ⟨destCols, hdc, hall, hins⟩ := executemany_ok_elim schema t
    (get_table_columns sdb t) (st.data t)
    (rowSuccesses t (get_table_columns sdb t) (fetch_rows sdb t)) newRows cnt hexec
  obtain ⟨added, hadd, hcnt, hlen⟩ := insertAll_shape (schema.keyOf t)
    (get_table_columns sdb t) (schema.notNull t)
    (rowSuccesses t (get_table_columns sdb t) (fetch_rows sdb t))
    (st.data t) 0 newRows cnt hins
  have htr : (convertRows t (get_table_columns sdb t) (fetch_rows sdb t)
      stats).2.total_rows = stats.total_rows :=
    (convertRowsAux_spec t (get_table_columns sdb t) (fetch_rows sdb t)
      1 stats).2.2.2.1
  refine ⟨by rw [hmt], by rw [hmt]; simpa using htr, by rw [hmt]; simp,
    by rw [hadd, hcnt]; simp, by omega, ?_⟩
  intro stats'
  -- the state after the first run
  have hst1 : (migrate_table sdb schema st t stats).1 =
      { st with data := fun u => if u = t then newRows else st.data u } := by
    rw [hmt]
  -- the second batch insert is a silent no-op
  have hkeys := insertAll_keys (schema.keyOf t) (get_table_columns sdb t)
    (schema.notNull t)
    (rowSuccesses t (get_table_columns sdb t) (fetch_rows sdb t))
    (st.data t) 0 newRows cnt hins
  have hnoerr := insertAll_no_rowError (schema.keyOf t) (get_table_columns sdb t)
    (schema.notNull t)
    (rowSuccesses t (get_table_columns sdb t) (fetch_rows sdb t))
    (st.data t) 0 newRows cnt hins
  have hkeys2 : ∀ r ∈ rowSuccesses t (get_table_columns sdb t) (fetch_rows sdb t),
      ∃ x ∈ newRows, schema.keyOf t x = schema.keyOf t r := hkeys
  have hexec2 : executemany schema t (get_table_columns sdb t) newRows
      (rowSuccesses t (get_table_columns sdb t) (fetch_rows sdb t)) =
        .ok (newRows, 0) := by
    unfold executemany
    simp only [hdc]
    rw [if_pos hall]
    exact insertAll_idempotent (schema.keyOf t) (get_table_columns sdb t)
      (schema.notNull t) _ newRows 0 hnoerr hkeys2
  have hdata1 : ((migrate_table sdb schema st t stats).1).data t = newRows := by
    rw [hmt]; simp
  have hmt2 := migrate_table_ok sdb schema (migrate_table sdb schema st t stats).1
    t stats' newRows 0 hcne hrne hconv (by rw [hdata1]; exact hexec2)
  refine ⟨by rw [hmt2], ?_⟩
  rw [hmt2]
  -- writing back the same contents leaves the state unchanged
  have hfun : (fun u => if u = t then newRows
      else ((migrate_table sdb schema st t stats).1).data u) =
      ((migrate_table sdb schema st t stats).1).data := by
    funext u
    by_cases hu : u = t
    · subst hu; rw [if_pos rfl, hdata1]
    · rw [if_neg hu]
  show ({ (migrate_table sdb schema st t stats).1 with
    data := fun u => if u = t then newRows
      else ((migrate_table sdb schema st t stats).1).data u } : DestState) = _
  rw [hfun]

def c1src : SQLiteDB :=
  { tables := [("users", ["id", "email"],
      [[Value.int 1, Value.text "ann"], [Value.int 2, Value.text "bob"]])] }

def c1schema : PGSchema :=
  { columns := fun t => if t = "users" then some ["id", "email"] else none,
    keyOf := fun _ r => r.take 1, notNull := fun _ => [] }

def c1dest : DestState :=
  { data := fun _ => [], seqs := fun _ => 0, fkEnforced := true }

/-- Claim C1 witness: two fresh `users` rows report two written rows on
the first run and zero on an immediate second run. -/
theorem c1_witness :
    (migrate_table c1src c1schema c1dest "users" initStats).2.2 = 2 ∧
    (migrate_table c1src c1schema c1dest "users" initStats).2.1.total_rows = 2 ∧
    (migrate_table c1src c1schema
      (migrate_table c1src c1schema c1dest "users" initStats).1 "users"
      initStats).2.2 = 0 := by
  have h := c1_batch_writer_reports_persisted_rows c1src c1schema c1dest initStats
    "users" [[Value.int 1, Value.text "ann"], [Value.int 2, Value.text "bob"]] 2
    (by decide) (by decide) (by decide) rfl
  exact ⟨h.1, by rw [h.2.1]; rfl, (h.2.2.2.2.2 initStats).1⟩

/-- Claim C4: if a table's batch insert statement fails, the whole batch
is rolled back atomically (the destination state is exactly what it was
before the table), the table reports zero written rows, exactly one
table-level error (row number 0) is appended for it, and the orchestrator
still processes every other table of the plan — the final destination
contents are those of the same plan with the failing table removed. -/
theorem c4_table_isolation (sdb : SQLiteDB) (schema : PGSchema)
    (pre post : List String) (b : String) (d0 : DestState)
    (st0 : MigrationStats) (e : String)
    (hcne : get_table_columns sdb b ≠ [])
    (hrne : fetch_rows sdb b ≠ [])
    (hconv : rowSuccesses b (get_table_columns sdb b) (fetch_rows sdb b) ≠ [])
    (hfail : executemany schema b (get_table_columns sdb b)
      ((migrateTables sdb schema pre d0 st0).1.data b)
      (rowSuccesses b (get_table_columns sdb b) (fetch_rows sdb b)) =
        .error e) :
    (migrate_table sdb schema (migrateTables sdb schema pre d0 st0).1 b
      (migrateTables sdb schema pre d0 st0).2.1).1 =
      (migrateTables sdb schema pre d0 st0).1 ∧
    (migrate_table sdb schema (migrateTables sdb schema pre d0 st0).1 b
      (migrateTables sdb schema pre d0 st0).2.1).2.2 = 0 ∧
    (migrate_table sdb schema (migrateTables sdb schema pre d0 st0).1 b
      (migrateTables sdb schema pre d0 st0).2.1).2.1.errors =
      (convertRows b (get_table_columns sdb b) (fetch_rows sdb b)
        (migrateTables sdb schema pre d0 st0).2.1).2.errors ++
        [errStr b 0 ("Batch insert failed: " ++ e)] ∧
    (migrateTables sdb schema (pre ++ b :: post) d0 st0).1 =
      (migrateTables sdb schema (pre ++ post) d0 st0).1 ∧
    (migrateTables sdb schema (pre ++ b :: post) d0 st0).2.2 =
      (pre ++ b :: post).map Event.tableDone := by
  have hA := migrate_table_err sdb schema (migrateTables sdb schema pre d0 st0).1 b
    (migrateTables sdb schema pre d0 st0).2.1 e hcne hrne hconv hfail
  refine ⟨by rw [hA], by rw [hA], by rw [hA]; simp [add_error], ?_,
    migrateTables_events sdb schema _ d0 st0⟩
  rw [(migrateTables_append sdb schema pre (b :: post) d0 st0).1,
    (migrateTables_append sdb schema pre post d0 st0).1]
  show (migrateTables sdb schema post _ _).1 = _
  rw [hA]
  exact migrateTables_stats_congr sdb schema post _ _ _

def c4src : SQLiteDB :=
  { tables :=
      [("conversation_sessions", ["id"], [[Value.int 1]]),
       ("users", ["id", "email"], [[Value.int 1, Value.text "ann"]]),
       ("custom_agents", ["id"], [[Value.int 9]])] }

def c4schema : PGSchema :=
  { columns := fun t =>
      if t = "conversation_sessions" then some ["id"]
      else if t = "custom_agents" then some ["id"]
      else if t = "users" then some ["id"] else none,
    keyOf := fun _ r => r.take 1, notNull := fun _ => [] }

def c4dest : DestState :=
  { data := fun _ => [], seqs := fun _ => 0, fkEnforced := true }

/-- Claim C4 witness: the `users` batch fails (its `email` column is
missing from the destination), reports zero rows, and the three-table plan
ends with the same destination contents as the plan without `users`,
every table having been processed. -/
theorem c4_witness :
    (migrate_table c4src c4schema
      (migrateTables c4src c4schema ["conversation_sessions"] c4dest
        initStats).1 "users"
      (migrateTables c4src c4schema ["conversation_sessions"] c4dest
        initStats).2.1).2.2 = 0 ∧
    (migrateTables c4src c4schema
      (["conversation_sessions"] ++ "users" :: ["custom_agents"]) c4dest
      initStats).1 =
      (migrateTables c4src c4schema (["conversation_sessions"] ++
        ["custom_agents"]) c4dest initStats).1 ∧
    (migrateTables c4src c4schema
      (["conversation_sessions"] ++ "users" :: ["custom_agents"]) c4dest
      initStats).2.2 =
      (["conversation_sessions"] ++ "users" :: ["custom_agents"]).map
        Event.tableDone := by
  have h := c4_table_isolation c4src c4schema ["conversation_sessions"]
    ["custom_agents"] "users" c4dest initStats "column does not exist"
    (by decide) (by decide) (by decide) rfl
  exact ⟨h.2.1, h.2.2.2.1, h.2.2.2.2⟩

end MigrationScript
